import Mathlib

/-!
# Verification of the EcoBloom P2P core against its specification

This file shallowly embeds the P2P overlay core of the repository
(`message.py`, `router.py`, `message_store.py`, `peer.py`,
`pest_alert_handler.py`) into Lean and proves the specification's
claims about it.

Conventions of the embedding:
* Python dicts are association lists with the dict operations
  (`in`, `[...]`, `.get`) defined on them; Python sets are duplicate-free
  lists whose order is the iteration order.
* Machine time (`time.time()`) and fresh uuid tokens are passed in as
  explicit parameters (`now`, `fresh`).
* Numbers on the wire are modelled by `Int` (JSON integers) and `Rat`
  (JSON floats); Python's `isinstance(x, int)` also accepts booleans,
  which the embedding reproduces.
-/

set_option maxHeartbeats 1000000

namespace EcoBloom

/-- JSON-compatible values, as produced by `json.loads`. An `obj` is the
Python dict resulting from parsing (its keys are therefore distinct in any
value that actually arises from a parse). -/
inductive Json where
  | null
  | bool (b : Bool)
  | int (n : Int)
  | float (q : Rat)
  | str (s : String)
  | arr (elems : List Json)
  | obj (fields : List (String × Json))

namespace Json

/-- Python `field in data` for a dict. -/
def dictHas (kvs : List (String × Json)) (k : String) : Bool :=
  kvs.any (fun kv => kv.1 == k)

/-- Python `data[k]` / `data.get(k)` for a dict. -/
def dictGet (kvs : List (String × Json)) (k : String) : Option Json :=
  (kvs.find? (fun kv => kv.1 == k)).map (·.2)

/-- `isinstance(x, str)` -/
def isStr : Json → Bool
  | .str _ => true
  | _ => false

/-- `isinstance(x, (str, type(None)))` -/
def isStrOrNone : Json → Bool
  | .str _ => true
  | .null => true
  | _ => false

/-- `isinstance(x, dict)` -/
def isDict : Json → Bool
  | .obj _ => true
  | _ => false

/-- `isinstance(x, int)`; Python booleans are `int`s. -/
def isIntPy : Json → Bool
  | .int _ => true
  | .bool _ => true
  | _ => false

/-- `isinstance(x, (int, float))`; Python booleans are `int`s. -/
def isNumPy : Json → Bool
  | .int _ => true
  | .float _ => true
  | .bool _ => true
  | _ => false

/-- `isinstance(x, list)` -/
def isList : Json → Bool
  | .arr _ => true
  | _ => false

/-- The string carried by a value known to be a `str`. -/
def asStr : Json → String
  | .str s => s
  | _ => ""

/-- A `str`-or-`None` value as an `Option String`. -/
def asStrOpt : Json → Option String
  | .str s => some s
  | _ => none

/-- The fields of a value known to be a dict. -/
def asDict : Json → List (String × Json)
  | .obj kvs => kvs
  | _ => []

/-- The numeric content of an `int`/`float`/`bool` value. -/
def asNum : Json → Rat
  | .int n => (n : Rat)
  | .float q => q
  | .bool b => if b then 1 else 0
  | _ => 0

/-- The integer content of an `int`/`bool` value. -/
def asInt : Json → Int
  | .int n => n
  | .bool b => if b then 1 else 0
  | _ => 0

/-- The elements of a value known to be a list. -/
def asArr : Json → List Json
  | .arr l => l
  | _ => []

end Json

/-- The state of a `Message` object (`message.py`). `path` elements are
arbitrary JSON values because `from_json` does not inspect them. -/
structure Message where
  peer_id : String
  target_user_id : Option String
  message_type : String
  data : List (String × Json)
  time_stamp : Rat
  message_id : String
  hop_count : Int
  path : List Json

namespace Message

/-- `Message.__init__` (`message.py` lines 13-21). `now` stands for
`time.time()` and `fresh` for the uuid token `uuid.uuid4().hex[:8]`;
`self.time_stamp = time_stamp or time.time()` keeps the argument only
when it is truthy, i.e. a non-zero number. -/
def init (peer_id : String) (target_user_id : Option String)
    (message_type : String) (data : List (String × Json)) (time_stamp : Rat)
    (now : Rat) (fresh : String) : Message :=
  { peer_id := peer_id
    target_user_id := target_user_id
    message_type := message_type
    data := data
    time_stamp := if time_stamp = 0 then now else time_stamp
    message_id := fresh
    hop_count := 0
    path := [Json.str peer_id] }

/-- `Message.to_json` (`message.py` lines 23-33), modelled down to the JSON
value that `json.dumps` serializes. -/
def to_json (m : Message) : Json :=
  .obj [("peer_id", .str m.peer_id),
        ("target_user_id",
          match m.target_user_id with
          | none => .null
          | some s => .str s),
        ("message_type", .str m.message_type),
        ("data", .obj m.data),
        ("time_stamp", .float m.time_stamp),
        ("message_id", .str m.message_id),
        ("hop_count", .int m.hop_count),
        ("path", .arr m.path)]

/-- `Message.from_json` (`message.py` lines 35-66), modelled from the JSON
value that `json.loads` yields; a non-object top-level value finds none of
the required keys. `now`/`fresh` feed the constructor call on line 62. -/
def from_json (now : Rat) (fresh : String) (j : Json) : Option Message :=
  match j with
  | .obj kvs =>
    -- required_fields check (lines 44-46)
    if ["peer_id", "target_user_id", "message_type", "data", "time_stamp",
        "message_id"].all (Json.dictHas kvs) then
      let pid := (Json.dictGet kvs "peer_id").getD .null
      let tgt := (Json.dictGet kvs "target_user_id").getD .null
      let mty := (Json.dictGet kvs "message_type").getD .null
      let dat := (Json.dictGet kvs "data").getD .null
      let tst := (Json.dictGet kvs "time_stamp").getD .null
      let mid := (Json.dictGet kvs "message_id").getD .null
      -- `data.get("hop_count", 0)` / `data.get("path", [])` (lines 55-56)
      let hc := (Json.dictGet kvs "hop_count").getD (.int 0)
      let pth := (Json.dictGet kvs "path").getD (.arr [])
      -- type checks (lines 49-56)
      if pid.isStr && tgt.isStrOrNone && mty.isStr && dat.isDict &&
         tst.isNumPy && mid.isStr && hc.isIntPy && pth.isList then
        -- hop-count cap (lines 59-60)
        if hc.asInt > 10 then none
        else
          let base := Message.init pid.asStr tgt.asStrOpt mty.asStr
            dat.asDict tst.asNum now fresh
          some { base with
                 message_id := mid.asStr
                 hop_count := hc.asInt
                 -- `data.get("path", [data["peer_id"]])` (line 65)
                 path := ((Json.dictGet kvs "path").getD (.arr [pid])).asArr }
      else none
    else none
  | _ => none

/-- `Message.add_hop` (`message.py` lines 68-70). -/
def add_hop (m : Message) (peer_id : String) : Message :=
  { m with hop_count := m.hop_count + 1, path := m.path ++ [Json.str peer_id] }

end Message

/-- A well-typed dict field: the key is present and its value passes the
given type test.  Used to state the decoding condition of `from_json`. -/
def RequiredField (kvs : List (String × Json)) (k : String)
    (ok : Json → Bool) : Prop :=
  ∃ v, Json.dictGet kvs k = some v ∧ ok v = true

/-- An optional dict field: if the key is present its value passes the
given type test. -/
def OptionalField (kvs : List (String × Json)) (k : String)
    (ok : Json → Bool) : Prop :=
  ∀ v, Json.dictGet kvs k = some v → ok v = true

/-- The decoding condition of the spec, as amended: the six fields of
`required_fields` are present and well-typed, `hop_count` and `path` are
well-typed when present, and the effective hop count (defaulting to 0) is
at most `MAX_HOPS = 10`. -/
def DecodesOK (kvs : List (String × Json)) : Prop :=
  RequiredField kvs "peer_id" Json.isStr ∧
  RequiredField kvs "target_user_id" Json.isStrOrNone ∧
  RequiredField kvs "message_type" Json.isStr ∧
  RequiredField kvs "data" Json.isDict ∧
  RequiredField kvs "time_stamp" Json.isNumPy ∧
  RequiredField kvs "message_id" Json.isStr ∧
  OptionalField kvs "hop_count" Json.isIntPy ∧
  OptionalField kvs "path" Json.isList ∧
  ((Json.dictGet kvs "hop_count").getD (.int 0)).asInt ≤ 10

/-! ## Offline message store (`message_store.py`)

The SQLite database is modelled by its two tables as lists of rows.  The
source never issues `PRAGMA foreign_keys = ON`, so with sqlite's default
settings the `ON DELETE CASCADE` clause of `schedule_messages` is inert:
deletes touch only the table they name.  Each `time.time()` call is an
explicit parameter. -/

/-- A row of the `offline_messages` table; `rowid` is the AUTOINCREMENT
primary key `id`. -/
structure OfflineRow where
  rowid : Nat
  peer_id : String
  target_user_id : Option String
  message_type : String
  data : List (String × Json)
  time_stamp : Rat
  message_id : String
  hop_count : Int
  path : List Json

/-- A row of the `schedule_messages` table; `message_id` is its primary
key. -/
structure ScheduleRow where
  message_id : String
  last_tried : Option Rat
  retry_count : Int
  expiry_time : Rat

/-- The database owned by one `MessageStore`. -/
structure MessageStore where
  next_id : Nat
  offline_messages : List OfflineRow
  schedule_messages : List ScheduleRow

namespace MessageStore

/-- `initialize_database` on a fresh database file: two empty tables. -/
def initialize_database : MessageStore :=
  { next_id := 1, offline_messages := [], schedule_messages := [] }

/-- `store_offline_message` (`message_store.py` lines 73-107).  The second
component reports the `sqlite3` error, if any: inserting a second row with
an existing `message_id` violates the `schedule_messages` primary key, and
a `None` target violates `offline_messages.target_user_id NOT NULL`; the
exception propagates before `connection.commit()` is reached, so the
uncommitted first insert is rolled back and the database is unchanged. -/
def store_offline_message (s : MessageStore) (m : Message) (now : Rat) :
    MessageStore × Option String :=
  if m.target_user_id = none then
    (s, some "NOT NULL constraint failed: offline_messages.target_user_id")
  else if s.schedule_messages.any (fun r => r.message_id == m.message_id) then
    (s, some "UNIQUE constraint failed: schedule_messages.message_id")
  else
    ({ next_id := s.next_id + 1
       offline_messages := s.offline_messages ++
         [{ rowid := s.next_id, peer_id := m.peer_id,
            target_user_id := m.target_user_id,
            message_type := m.message_type, data := m.data,
            time_stamp := m.time_stamp, message_id := m.message_id,
            hop_count := m.hop_count, path := m.path }]
       schedule_messages := s.schedule_messages ++
         [{ message_id := m.message_id, last_tried := none, retry_count := 0,
            expiry_time := now + 604800 }] }, none)

/-- `delete_expired_messages` (`message_store.py` lines 198-213):
`DELETE FROM offline_messages WHERE message_id IN
(SELECT message_id FROM schedule_messages WHERE expiry_time <= now)`.
Only `offline_messages` rows are deleted (cascade is inert, see above). -/
def delete_expired_messages (s : MessageStore) (now : Rat) : MessageStore :=
  { s with offline_messages := s.offline_messages.filter (fun o =>
      ! s.schedule_messages.any (fun r =>
          r.message_id == o.message_id && decide (r.expiry_time ≤ now))) }

/-- `delet_sent_messages` (`message_store.py` lines 136-149, spelling from
the source): deletes the rows for `target_peer` whose schedule entry has
not yet expired. -/
def delet_sent_messages (s : MessageStore) (target_peer : String)
    (now : Rat) : MessageStore :=
  { s with offline_messages := s.offline_messages.filter (fun o =>
      ! (o.target_user_id == some target_peer &&
         s.schedule_messages.any (fun r =>
           r.message_id == o.message_id && decide (now < r.expiry_time)))) }

/-- `data_to_message_class` (`message_store.py` lines 254-272): rebuilds a
`Message` from a row; the constructor consumes `now`/`fresh` as in
`Message.init`, and `message_id`, `hop_count`, `path` are then overwritten
from the row. -/
def data_to_message_class (now : Rat) (fresh : String) (o : OfflineRow) :
    Message :=
  let m := Message.init o.peer_id o.target_user_id o.message_type o.data
    o.time_stamp now fresh
  { m with message_id := o.message_id, hop_count := o.hop_count,
           path := o.path }

/-- `get_pending_messages` (`message_store.py` lines 109-134): first evicts
expired rows, then selects the join of the two tables restricted to
`target_peer` with unexpired schedule entries (the `message_id` primary key
makes the join at most one schedule row per message row), then deletes all
unexpired rows for `target_peer` via `delet_sent_messages` — before
returning, hence before the caller can attempt any send.  The `time.time()`
of each step is passed separately (`now1`: eviction, `now2`: selection,
`nowm`: row-to-message conversion, `now3`: deletion). -/
def get_pending_messages (s : MessageStore) (target_peer : String)
    (now1 now2 nowm now3 : Rat) (fresh : String) :
    List Message × MessageStore :=
  let s1 := s.delete_expired_messages now1
  let rows := s1.offline_messages.filter (fun o =>
    o.target_user_id == some target_peer &&
    s1.schedule_messages.any (fun r =>
      r.message_id == o.message_id && decide (now2 < r.expiry_time)))
  let messages := rows.map (data_to_message_class nowm fresh)
  let s2 := s1.delet_sent_messages target_peer now3
  (messages, s2)

end MessageStore

/-! ## Router (`router.py`)

`peer_graph` is the Python dict `PeerId → set<PeerId>`: an association list
whose value lists carry the set's iteration order and hold no duplicates.
`routing_graph` is the dict `destination → next hop`. -/

/-- `self.peer_graph.get(node, set())`. -/
def neighborsOf (g : List (String × List String)) (node : String) :
    List String :=
  ((g.find? (fun kv => kv.1 == node)).map (·.2)).getD []

/-- `node in self.peer_graph`. -/
def graphHasKey (g : List (String × List String)) (node : String) : Bool :=
  g.any (fun kv => kv.1 == node)

/-- One pop of the BFS loop of `Router.BFS_path_finding` (`router.py`
lines 40-51): take the front of the FIFO frontier, skip it if explored,
return its path if it is the target, otherwise mark it explored and append
its unexplored neighbors (in adjacency order) with extended paths.  `fuel`
bounds the number of pops; `BFS_path_finding` supplies enough fuel for the
loop to run to natural termination. -/
def bfsAux (g : List (String × List String)) (target : String) :
    Nat → List (String × List String) → List String → Option (List String)
  | 0, _, _ => none
  | _ + 1, [], _ => none
  | fuel + 1, (node, path) :: rest, explored =>
    if node ∈ explored then bfsAux g target fuel rest explored
    else if node = target then some path
    else
      bfsAux g target fuel
        (rest ++ ((neighborsOf g node).filter
            (fun n => ¬ (n ∈ node :: explored))).map
          (fun n => (n, path ++ [n])))
        (node :: explored)

/-- Total size of all adjacency lists. -/
def totalAdj (g : List (String × List String)) : Nat :=
  (g.map (fun kv => kv.2.length)).sum

/-- Enough fuel to run the BFS loop to natural termination (proved below:
the loop measure starts under this bound and strictly decreases). -/
def bfsFuel (g : List (String × List String)) : Nat :=
  (1 + g.length + totalAdj g) * (1 + totalAdj g) + 1

namespace Router

/-- `Router.BFS_path_finding` (`router.py` lines 11-51). -/
def BFS_path_finding (g : List (String × List String)) (self_id : String)
    (target_peer_id : String) : Option (List String) :=
  if target_peer_id = self_id then some [self_id]
  else if ¬ graphHasKey g target_peer_id then none
  else bfsAux g target_peer_id (bfsFuel g) [(self_id, [self_id])] []

/-- `Router.get_next_hop` (`router.py` lines 53-66) with the default
`update_path=False`: the element after the first occurrence of
`current_node` in `path`, or `None` (the bare `except` catches the
`ValueError` of a missing element). -/
def get_next_hop (current_node : String) (path : List String) :
    Option String :=
  match path.findIdx? (fun x => x == current_node) with
  | none => none
  | some i => if i + 1 ≥ path.length then none else path.get? (i + 1)

end Router

/-- Dict update `d[k] = v` on an association list. -/
def dictInsertStr (l : List (String × String)) (k v : String) :
    List (String × String) :=
  if l.any (fun kv => kv.1 == k) then
    l.map (fun kv => if kv.1 == k then (k, v) else kv)
  else l ++ [(k, v)]

/-- Dict read `d.get(k)` on an association list of strings. -/
def dictGetStr (l : List (String × String)) (k : String) : Option String :=
  (l.find? (fun kv => kv.1 == k)).map (·.2)

/-- The state of a `Router` (`router.py` lines 3-9). -/
structure Router where
  routing_graph : List (String × String)
  peer_graph : List (String × List String)
  peer_id : String

namespace Router

/-- `Router.update_routing_graph` (`router.py` lines 68-89): rebuild
`routing_graph` from scratch, one BFS per known peer other than self;
`if path:` and `if next_hop:` are Python truthiness tests, so an empty
path, a missing hop or an empty-string hop all leave the target out. -/
def update_routing_graph (rt : Router) (known_peers : List String) :
    Router :=
  { rt with routing_graph := known_peers.foldl (fun acc target_peer =>
      if target_peer = rt.peer_id then acc
      else
        match BFS_path_finding rt.peer_graph rt.peer_id target_peer with
        | none => acc
        | some path =>
          if path.isEmpty then acc
          else
            match get_next_hop rt.peer_id path with
            | none => acc
            | some next_hop =>
              if next_hop = "" then acc
              else dictInsertStr acc target_peer next_hop) [] }

/-- `Router.update_peer_graph` (`router.py` lines 91-98): ensure both keys
exist, then add each endpoint to the other's adjacency set (append-if-
absent, preserving iteration order). -/
def update_peer_graph (rt : Router) (other_peer_id : String) : Router :=
  let ensure := fun (g : List (String × List String)) (k : String) =>
    if graphHasKey g k then g else g ++ [(k, [])]
  let addEdge := fun (g : List (String × List String)) (k v : String) =>
    g.map (fun kv =>
      if kv.1 == k then
        (kv.1, if v ∈ kv.2 then kv.2 else kv.2 ++ [v])
      else kv)
  let g1 := ensure (ensure rt.peer_graph rt.peer_id) other_peer_id
  let g2 := addEdge (addEdge g1 rt.peer_id other_peer_id)
    other_peer_id rt.peer_id
  { rt with peer_graph := g2 }

/-- `Router.remove_peer` (`router.py` lines 100-122): drop the peer's key
from `peer_graph`, every routing row whose destination or hop is the peer,
and the peer from every remaining adjacency set. -/
def remove_peer (rt : Router) (other_peer_id : String) : Router :=
  let pg1 := rt.peer_graph.filter (fun kv => kv.1 != other_peer_id)
  let rg1 := rt.routing_graph.filter (fun kv =>
    kv.1 != other_peer_id && kv.2 != other_peer_id)
  let pg2 := pg1.map (fun kv =>
    (kv.1, kv.2.filter (fun n => n != other_peer_id)))
  { rt with peer_graph := pg2, routing_graph := rg1 }

/-- The value `update_routing_graph` computes for one target: the loop body
of `router.py` lines 82-89 as a function of the target alone (proved below
to characterize the rebuilt table). -/
def route_entry (rt : Router) (target_peer : String) : Option String :=
  if target_peer = rt.peer_id then none
  else
    match BFS_path_finding rt.peer_graph rt.peer_id target_peer with
    | none => none
    | some path =>
      if path.isEmpty then none
      else
        match get_next_hop rt.peer_id path with
        | none => none
        | some next_hop =>
          if next_hop = "" then none else some next_hop

/-- One iteration of the `update_routing_graph` loop, phrased through
`route_entry`. -/
def routeStep (rt : Router) (acc : List (String × String)) (t : String) :
    List (String × String) :=
  match rt.route_entry t with
  | none => acc
  | some h => dictInsertStr acc t h

end Router

/-! ## Specification vocabulary for the router

`IsPathND` is the graph-theoretic notion the spec's BFS claims are stated
with: a duplicate-free walk along stored adjacency, from `s` to `t`.
`lexLe`/`entLe` express the tie-break order: among equal-length paths the
lexicographically smaller one (element order on peer-id strings). -/

/-- A duplicate-free path from `s` to `t` along the adjacency structure. -/
def IsPathND (g : List (String × List String)) (s t : String)
    (p : List String) : Prop :=
  p.head? = some s ∧ p.getLast? = some t ∧
  List.Chain' (fun a b => b ∈ neighborsOf g a) p ∧ p.Nodup

instance (g : List (String × List String)) (s t : String)
    (p : List String) : Decidable (IsPathND g s t p) :=
  inferInstanceAs (Decidable (p.head? = some s ∧ p.getLast? = some t ∧
    List.Chain' (fun a b => b ∈ neighborsOf g a) p ∧ p.Nodup))

/-- Strict lexicographic order on peer-id sequences. -/
def lexLt (p q : List String) : Prop := List.Lex (· < ·) p q

/-- Reflexive lexicographic order. -/
def lexLe (p q : List String) : Prop := p = q ∨ lexLt p q

/-- Frontier-entry order: shorter path first, lexicographic among equal
lengths. -/
def entLe (a b : String × List String) : Prop :=
  a.2.length < b.2.length ∨
  (a.2.length = b.2.length ∧ lexLe a.2 b.2)

/-- Every node the BFS can ever reach: self, the graph's keys, and every
adjacency member. -/
def bfsUniv (g : List (String × List String)) (self_id : String) :
    Finset String :=
  insert self_id
    (g.foldr (fun kv acc => insert kv.1 (kv.2.foldr insert acc)) ∅)

/-- Loop measure of the BFS: it strictly decreases at every pop. -/
def bfsMeasure (g : List (String × List String)) (self_id : String)
    (fr : List (String × List String)) (ex : List String) : Nat :=
  ((bfsUniv g self_id).card - ex.length) * (1 + totalAdj g) + fr.length

/-- The entries `bfsAux` appends when processing node `n` with path `p`:
its unexplored neighbors, in adjacency order, with extended paths. -/
def childrenOf (g : List (String × List String)) (n : String)
    (p : List String) (ex : List String) :
    List (String × List String) :=
  ((neighborsOf g n).filter (fun m => ¬ (m ∈ n :: ex))).map
    (fun m => (m, p ++ [m]))

/-- The loop invariant of `bfsAux`, at frontier `fr` and explored set
`ex`. -/
structure BfsInv (g : List (String × List String)) (self_id target : String)
    (fr : List (String × List String)) (ex : List String) : Prop where
  valid : ∀ e ∈ fr, IsPathND g self_id e.1 e.2
  prefixEx : ∀ e ∈ fr, ∀ x ∈ e.2.dropLast, x ∈ ex
  exNodup : ex.Nodup
  exU : ∀ x ∈ ex, x ∈ bfsUniv g self_id
  frU : ∀ e ∈ fr, e.1 ∈ bfsUniv g self_id
  targetNE : target ∉ ex
  sorted2 : fr.Pairwise entLe
  twoLevel : ∀ e ∈ fr, ∀ f ∈ fr, e.2.length ≤ f.2.length + 1
  distinctPaths : fr.Pairwise (fun a b => a.2 ≠ b.2)
  parentNotIn : ∀ e ∈ fr, ∀ f ∈ fr, e.2.dropLast ≠ f.2
  parentLe : ∀ f, fr.head? = some f → ∀ e ∈ fr,
    e.2.length = f.2.length + 1 → lexLe e.2.dropLast f.2
  cover : ∀ q, IsPathND g self_id target q →
    ∃ k e, e ∈ fr ∧ e.1 ∉ ex ∧ q[k]? = some e.1 ∧
      e.2.length ≤ k + 1 ∧
      (e.2.length = k + 1 → lexLe e.2 (q.take (k + 1))) ∧
      ∀ j x, k < j → q[j]? = some x → x ∉ ex

/-! ## Peer node (`peer.py`) and pest alert handler (`pest_alert_handler.py`)

The socket layer is out of scope; what is embedded is each handler's state
transition together with the list of messages it queues, as pairs
`(peer id of the connection queued on, message)`.  Python exceptions
escaping a handler (e.g. the integrity error of a duplicate offline store)
abort later statements of the handler in the source; the claims proved
below only concern state already written before any such raise. -/

/-- Python `k in d` for a string-keyed dict. -/
def pyDictHas {α : Type} (l : List (String × α)) (k : String) : Bool :=
  l.any (fun kv => kv.1 == k)

/-- Python `d[k] = v`: replace in place, or append a new key. -/
def pyDictSet {α : Type} (l : List (String × α)) (k : String) (v : α) :
    List (String × α) :=
  if pyDictHas l k then l.map (fun kv => if kv.1 == k then (k, v) else kv)
  else l ++ [(k, v)]

/-- The per-link state of a `PeerConnection` that the handlers touch. -/
structure PeerConnection where
  peer_id : Option String
  is_handshake_complete : Bool

/-- The state of a `Peer` (`peer.py` lines 13-42), restricted to the
fields the protocol handlers read or write.  `pest_recent_alerts` is the
`recent_alerts` list of the peer's `PestAlertHandler`. -/
structure Peer where
  host : String
  port : Int
  peer_id : String
  connections : List (String × PeerConnection)
  known_peers : List (String × Json)
  seen_messages : List String
  router : Router
  message_store : MessageStore
  pest_recent_alerts : List (Message × Rat × String)

/-- The string elements of a JSON list (the adjacency lists gossiped in a
`NETWORK_UPDATE` are lists of peer-id strings). -/
def jsonStrElems (j : Json) : List String :=
  j.asArr.filterMap (fun e =>
    match e with
    | .str s => some s
    | _ => none)

/-- `peer_id in set(path)`: a string is in the path set iff it equals one
of the path's string elements. -/
def pathContainsStr (path : List Json) (s : String) : Bool :=
  path.any (fun e =>
    match e with
    | .str t => t == s
    | _ => false)

namespace PestAlertHandler

/-- `PestAlertHandler._forward_alert` (`pest_alert_handler.py` lines
130-154): for every connected peer not in `set(alert_message.path)`, build
a fresh `Message` keeping the original `message_id`, with `hop_count`
incremented and the local peer id appended to `path`, and hand it to
`Peer.send_message_to_peer`.  Modelled from the spec: the repository
defines no `send_message_to_peer` on `Peer`; per §4.6.6 the transmission
primitive queues the message on the named neighbor's link, which here is
the emitted pair. -/
def forward_alert (self_peer_id : String) (connection_keys : List String)
    (alert : Message) (now : Rat) (fresh : String) :
    List (String × Message) :=
  connection_keys.filterMap (fun pid =>
    if pathContainsStr alert.path pid then none
    else
      let fm := Message.init self_peer_id (some pid) "PEST_ALERT"
        alert.data now now fresh
      some (pid, { fm with
        message_id := alert.message_id
        hop_count := alert.hop_count + 1
        path := alert.path ++ [Json.str self_peer_id] }))

/-- `PestAlertHandler.handle_received_alert` (`pest_alert_handler.py`
lines 102-128): record the alert, then forward it iff its hop count is
below the handler's cap of 3. -/
def handle_received_alert (recent_alerts : List (Message × Rat × String))
    (self_peer_id : String) (connection_keys : List String)
    (alert_message : Message) (now : Rat) (fresh : String) :
    List (Message × Rat × String) × List (String × Message) :=
  (recent_alerts ++ [(alert_message, now, alert_message.peer_id)],
   if alert_message.hop_count < 3 then
     forward_alert self_peer_id connection_keys alert_message now fresh
   else [])

end PestAlertHandler

namespace Peer

/-- `Peer.route_message` (`peer.py` lines 304-323): look the target up in
the routing table; queue on the next hop when it is connected, otherwise
store offline.  The returned flag is the source's return value. -/
def route_message (p : Peer) (m : Message) (now : Rat) :
    Peer × List (String × Message) × Bool :=
  let next_hop := match m.target_user_id with
    | none => none
    | some t => dictGetStr p.router.routing_graph t
  match next_hop with
  | none =>
    let s' := (p.message_store.store_offline_message m now).1
    ({ p with message_store := s' }, [], false)
  | some nh =>
    if pyDictHas p.connections nh then
      (p, [(nh, m.add_hop p.peer_id)], true)
    else
      let s' := (p.message_store.store_offline_message m now).1
      ({ p with message_store := s' }, [], false)

/-- `Peer.send_message` (`peer.py` lines 325-334): direct delivery when the
target is a connected peer other than self, else `route_message`. -/
def send_message (p : Peer) (m : Message) (now : Rat) :
    Peer × List (String × Message) × Bool :=
  match m.target_user_id with
  | some t =>
    if pyDictHas p.connections t && (t != p.peer_id) then
      (p, [(t, m.add_hop p.peer_id)], true)
    else p.route_message m now
  | none => p.route_message m now

/-- `Peer.deliver_queued_messages` (`peer.py` lines 404-412): drain the
offline store for the peer and `send_message` each result. -/
def deliver_queued_messages (p : Peer) (target_peer : String) (now : Rat)
    (fresh : String) : Peer × List (String × Message) :=
  let pending := p.message_store.get_pending_messages target_peer
    now now now now fresh
  let p1 := { p with message_store := pending.2 }
  pending.1.foldl (fun acc m =>
    let step := acc.1.send_message m now
    (step.1, acc.2 ++ step.2.1)) (p1, [])

/-- The `NETWORK_UPDATE` payload
`{"peer_graph": {key: list(value), ...}}` built from the router's graph. -/
def networkUpdateData (rt : Router) : List (String × Json) :=
  [("peer_graph", Json.obj (rt.peer_graph.map (fun kv =>
    (kv.1, Json.arr (kv.2.map Json.str)))))]

/-- `Peer.handle_handshake` (`peer.py` lines 155-228): bind the connection,
reply with a handshake iff the sender was unknown, record the sender's
endpoint in `known_peers`, update the peer graph and routing table, mark
the link complete, drain the offline queue for the sender, send it a
`PEER_LIST` and a `NETWORK_UPDATE`, and re-broadcast both to every other
completed connection. -/
def handle_handshake (p : Peer) (m : Message) (conn : PeerConnection)
    (now : Rat) (fresh : String) : Peer × List (String × Message) :=
  let other := m.peer_id
  let conns1 := pyDictSet p.connections other conn
  let reply : List (String × Message) :=
    if pyDictHas p.known_peers other then []
    else
      [(other, Message.init p.peer_id (some other) "HANDSHAKE"
        [("host", Json.str p.host), ("port", Json.int p.port)] now now fresh)]
  let kp1 := pyDictSet p.known_peers other
    (Json.obj [("host", (Json.dictGet m.data "host").getD Json.null),
               ("port", (Json.dictGet m.data "port").getD Json.null)])
  let rt1 := p.router.update_peer_graph other
  let rt2 := rt1.update_routing_graph (kp1.map (·.1))
  let conns2 := pyDictSet conns1 other
    { conn with peer_id := some other, is_handshake_complete := true }
  let p1 := { p with connections := conns2, known_peers := kp1,
                     router := rt2 }
  let step := p1.deliver_queued_messages other now fresh
  let p2 := step.1
  let em2 := [(other, Message.init p.peer_id (some other) "PEER_LIST"
                p2.known_peers now now fresh),
              (other, Message.init p.peer_id (some other) "NETWORK_UPDATE"
                (networkUpdateData p2.router) now now fresh)]
  let em3 := (p2.connections.filter (fun kv =>
      kv.1 != other && kv.2.is_handshake_complete)).flatMap (fun kv =>
    [(kv.1, Message.init p.peer_id (some kv.1) "PEER_LIST"
        p2.known_peers now now fresh),
     (kv.1, Message.init p.peer_id (some kv.1) "NETWORK_UPDATE"
        (networkUpdateData p2.router) now now fresh)])
  (p2, reply ++ step.2 ++ em2 ++ em3)

/-- `Peer.handle_user_message` (`peer.py` lines 230-235): messages for self
are printed (local delivery), everything else is routed onward. -/
def handle_user_message (p : Peer) (m : Message) (now : Rat) :
    Peer × List (String × Message) :=
  if m.target_user_id == some p.peer_id then (p, [])
  else
    let step := p.route_message m now
    (step.1, step.2.1)

/-- `Peer.handle_peer_list` (`peer.py` lines 237-260): insert every entry
whose key is neither self nor already known; when anything was inserted,
recompute routing and re-emit the updated list to every completed
connection. -/
def handle_peer_list (p : Peer) (m : Message) (now : Rat)
    (fresh : String) : Peer × List (String × Message) :=
  let ins := m.data.foldl (fun (acc : List (String × Json) × Nat) kv =>
    if kv.1 != p.peer_id && ! pyDictHas acc.1 kv.1 then
      (acc.1 ++ [kv], acc.2 + 1)
    else acc) (p.known_peers, 0)
  if ins.2 > 0 then
    let rt' := p.router.update_routing_graph (ins.1.map (·.1))
    let p1 := { p with known_peers := ins.1, router := rt' }
    (p1, (p1.connections.filter (fun kv => kv.2.is_handshake_complete)).map
      (fun kv => (kv.1, Message.init p.peer_id (some kv.1) "PEER_LIST"
        ins.1 now now fresh)))
  else ({ p with known_peers := ins.1 }, [])

/-- `Peer.handle_network_structure_message` (`peer.py` lines 262-302):
merge the received adjacency view symmetrically into the local peer graph;
if anything changed, recompute routing and re-emit to every completed
connection except the sender. -/
def handle_network_structure_message (p : Peer) (m : Message) (now : Rat)
    (fresh : String) : Peer × List (String × Message) :=
  let received := ((Json.dictGet m.data "peer_graph").getD Json.null).asDict
  let addNbr := fun (g : List (String × List String)) (k v : String) =>
    g.map (fun kv => if kv.1 == k then (kv.1, kv.2 ++ [v]) else kv)
  let merged := received.foldl
    (fun (acc : List (String × List String) × Bool) kv =>
      let acc := if graphHasKey acc.1 kv.1 then acc
                 else (acc.1 ++ [(kv.1, [])], true)
      (jsonStrElems kv.2).foldl (fun acc nbr =>
        let acc := if graphHasKey acc.1 nbr then acc
                   else (acc.1 ++ [(nbr, [])], true)
        let acc := if nbr ∈ neighborsOf acc.1 kv.1 then acc
                   else (addNbr acc.1 kv.1 nbr, true)
        if kv.1 ∈ neighborsOf acc.1 nbr then acc
        else (addNbr acc.1 nbr kv.1, true)) acc) (p.router.peer_graph, false)
  if merged.2 then
    let rt1 := { p.router with peer_graph := merged.1 }
    let rt2 := rt1.update_routing_graph (p.known_peers.map (·.1))
    let p1 := { p with router := rt2 }
    (p1, (p1.connections.filter (fun kv =>
        kv.1 != m.peer_id && kv.2.is_handshake_complete)).map
      (fun kv => (kv.1, Message.init p.peer_id (some kv.1) "NETWORK_UPDATE"
        (networkUpdateData p1.router) now now fresh)))
  else ({ p with router := { p.router with peer_graph := merged.1 } }, [])

/-- `Peer.handle_message` (`peer.py` lines 137-153): drop already-seen
message ids; otherwise record the id and dispatch on `message_type`.  The
boolean reports whether one of the five handlers was invoked. -/
def handle_message (p : Peer) (m : Message) (conn : PeerConnection)
    (now : Rat) (fresh : String) : Peer × List (String × Message) × Bool :=
  if m.message_id ∈ p.seen_messages then (p, [], false)
  else
    let p1 := { p with seen_messages := p.seen_messages ++ [m.message_id] }
    if m.message_type = "PEST_ALERT" then
      let step := PestAlertHandler.handle_received_alert
        p1.pest_recent_alerts p1.peer_id (p1.connections.map (·.1)) m now
        fresh
      ({ p1 with pest_recent_alerts := step.1 }, step.2, true)
    else if m.message_type = "HANDSHAKE" then
      let step := p1.handle_handshake m conn now fresh
      (step.1, step.2, true)
    else if m.message_type = "MESSAGE" then
      let step := p1.handle_user_message m now
      (step.1, step.2, true)
    else if m.message_type = "PEER_LIST" then
      let step := p1.handle_peer_list m now fresh
      (step.1, step.2, true)
    else if m.message_type = "NETWORK_UPDATE" then
      let step := p1.handle_network_structure_message m now fresh
      (step.1, step.2, true)
    else (p1, [], false)

end Peer

/-- The message types `handle_message` dispatches to a handler. -/
def handledTypes : List String :=
  ["PEST_ALERT", "HANDSHAKE", "MESSAGE", "PEER_LIST", "NETWORK_UPDATE"]

namespace Peer

/-- A sequence of deliveries to one node: fold `handle_message` over the
incoming messages, collecting those dispatched to a handler. -/
def run_messages (p : Peer) (ms : List (Message × PeerConnection))
    (now : Rat) (fresh : String) : Peer × List Message :=
  ms.foldl (fun acc mc =>
    let step := acc.1.handle_message mc.1 mc.2 now fresh
    (step.1, if step.2.2 then acc.2 ++ [mc.1] else acc.2)) (p, [])

end Peer

/-! ## Theorems -/

theorem Json.dictHas_eq_true_iff (kvs : List (String × Json)) (k : String) :
    Json.dictHas kvs k = true ↔ ∃ v, Json.dictGet kvs k = some v := by
  simp only [Json.dictHas, Json.dictGet, List.any_eq_true, Option.map_eq_some']
  constructor
  · rintro ⟨kv, hmem, hk⟩
    have : (kvs.find? (fun kv => kv.1 == k)).isSome := by
      rw [List.find?_isSome]
      exact ⟨kv, hmem, hk⟩
    obtain ⟨kv', hkv'⟩ := Option.isSome_iff_exists.mp this
    exact ⟨kv'.2, kv', hkv', rfl⟩
  · rintro ⟨v, kv, hfind, _⟩
    have hp := List.find?_some hfind
    exact ⟨kv, List.mem_of_find?_eq_some hfind, hp⟩

/-- C4 (counterexample): a JSON object carrying only the six keys of
`required_fields` — `hop_count` and `path` both missing — is decoded
successfully, where the claim requires a parse error for every line missing
one of the eight listed keys. -/
theorem from_json_accepts_missing_hop_count_and_path :
    Message.from_json 1 "f"
      (Json.obj
        [("peer_id", .str "a"), ("target_user_id", .null),
         ("message_type", .str "M"), ("data", .obj []),
         ("time_stamp", .int 7), ("message_id", .str "m1")]) ≠ none := by
  intro h
  rw [show Message.from_json 1 "f"
      (Json.obj
        [("peer_id", .str "a"), ("target_user_id", .null),
         ("message_type", .str "M"), ("data", .obj []),
         ("time_stamp", .int 7), ("message_id", .str "m1")]) =
      some { peer_id := "a", target_user_id := none, message_type := "M",
             data := [], time_stamp := 7, message_id := "m1", hop_count := 0,
             path := [Json.str "a"] } from rfl] at h
  exact Option.noConfusion h

/-- C4 (amended): `from_json` on a parsed JSON object fails exactly when a
key of `required_fields` (`peer_id`, `target_user_id`, `message_type`,
`data`, `time_stamp`, `message_id`) is missing or ill-typed, when an
optional `hop_count` or `path` is present but ill-typed, or when the
effective hop count exceeds `MAX_HOPS = 10`. -/
theorem from_json_ne_none_iff (now : Rat) (fresh : String)
    (kvs : List (String × Json)) :
    Message.from_json now fresh (Json.obj kvs) ≠ none ↔ DecodesOK kvs := by
  have step : Message.from_json now fresh (Json.obj kvs) ≠ none ↔
      (["peer_id", "target_user_id", "message_type", "data", "time_stamp",
        "message_id"].all (Json.dictHas kvs) = true) ∧
      (((Json.dictGet kvs "peer_id").getD .null).isStr = true ∧
       ((Json.dictGet kvs "target_user_id").getD .null).isStrOrNone = true ∧
       ((Json.dictGet kvs "message_type").getD .null).isStr = true ∧
       ((Json.dictGet kvs "data").getD .null).isDict = true ∧
       ((Json.dictGet kvs "time_stamp").getD .null).isNumPy = true ∧
       ((Json.dictGet kvs "message_id").getD .null).isStr = true ∧
       ((Json.dictGet kvs "hop_count").getD (.int 0)).isIntPy = true ∧
       ((Json.dictGet kvs "path").getD (.arr [])).isList = true) ∧
      ¬ (((Json.dictGet kvs "hop_count").getD (.int 0)).asInt > 10) := by
    simp only [Message.from_json]
    split_ifs with hA hB hC <;>
      simp_all [Bool.and_eq_true]
  rw [step]
  unfold DecodesOK RequiredField OptionalField
  simp only [List.all_cons, List.all_nil, Bool.and_eq_true, Bool.and_true,
    Json.dictHas_eq_true_iff]
  constructor
  · rintro ⟨⟨⟨v1, hv1⟩, ⟨v2, hv2⟩, ⟨v3, hv3⟩, ⟨v4, hv4⟩, ⟨v5, hv5⟩, ⟨v6, hv6⟩⟩,
      ⟨t1, t2, t3, t4, t5, t6, t7, t8⟩, hcap⟩
    rw [hv1] at t1; rw [hv2] at t2; rw [hv3] at t3; rw [hv4] at t4
    rw [hv5] at t5; rw [hv6] at t6
    refine ⟨⟨v1, hv1, t1⟩, ⟨v2, hv2, t2⟩, ⟨v3, hv3, t3⟩, ⟨v4, hv4, t4⟩,
      ⟨v5, hv5, t5⟩, ⟨v6, hv6, t6⟩, ?_, ?_, by omega⟩
    · intro v hv; rw [hv] at t7; exact t7
    · intro v hv; rw [hv] at t8; exact t8
  · rintro ⟨⟨v1, hv1, t1⟩, ⟨v2, hv2, t2⟩, ⟨v3, hv3, t3⟩, ⟨v4, hv4, t4⟩,
      ⟨v5, hv5, t5⟩, ⟨v6, hv6, t6⟩, t7, t8, hcap⟩
    refine ⟨⟨⟨v1, hv1⟩, ⟨v2, hv2⟩, ⟨v3, hv3⟩, ⟨v4, hv4⟩, ⟨v5, hv5⟩, ⟨v6, hv6⟩⟩,
      ⟨?_, ?_, ?_, ?_, ?_, ?_, ?_, ?_⟩, by omega⟩
    · rw [hv1]; exact t1
    · rw [hv2]; exact t2
    · rw [hv3]; exact t3
    · rw [hv4]; exact t4
    · rw [hv5]; exact t5
    · rw [hv6]; exact t6
    · cases h : Json.dictGet kvs "hop_count" with
      | none => rfl
      | some v => simpa using t7 v h
    · cases h : Json.dictGet kvs "path" with
      | none => rfl
      | some v => simpa using t8 v h

/-- C4 witness: the amended equivalence applied at a concrete well-formed
line, decoding successfully. -/
theorem from_json_ne_none_iff_witness :
    Message.from_json 1 "f"
      (Json.obj
        [("peer_id", .str "a"), ("target_user_id", .str "b"),
         ("message_type", .str "M"), ("data", .obj []),
         ("time_stamp", .int 7), ("message_id", .str "m1"),
         ("hop_count", .int 3), ("path", .arr [.str "a"])]) ≠ none :=
  (from_json_ne_none_iff 1 "f" _).mpr
    ⟨⟨.str "a", rfl, rfl⟩, ⟨.str "b", rfl, rfl⟩, ⟨.str "M", rfl, rfl⟩,
     ⟨.obj [], rfl, rfl⟩, ⟨.int 7, rfl, rfl⟩, ⟨.str "m1", rfl, rfl⟩,
     fun v hv => by cases hv.symm.trans rfl; rfl,
     fun v hv => by cases hv.symm.trans rfl; rfl,
     by decide⟩

/-- C1 (amended): decoding the encoding restores every valid Message whose
time stamp is a non-zero (truthy) number: `hop_count ≤ MAX_HOPS` and
`time_stamp ≠ 0` imply `from_json (to_json m) = m` on every field,
including `path`, `hop_count` and `message_id`. -/
theorem message_roundtrip (m : Message) (now : Rat) (fresh : String)
    (hhc : m.hop_count ≤ 10) (hts : m.time_stamp ≠ 0) :
    Message.from_json now fresh (Message.to_json m) = some m := by
  obtain ⟨pid, tgt, mty, dat, ts, mid, hc, pth⟩ := m
  simp only [Message.to_json, Message.from_json, Json.dictGet, Json.dictHas,
    List.find?, List.all, List.any] at *
  cases tgt <;>
    simp_all [Message.init, Json.isStr, Json.isStrOrNone, Json.isDict,
      Json.isNumPy, Json.isIntPy, Json.isList, Json.asStr, Json.asStrOpt,
      Json.asDict, Json.asNum, Json.asInt, Json.asArr]

/-- C1 (counterexample): a valid Message with `time_stamp = 0` is not
restored by `from_json ∘ to_json`; the decoder rebuilds it with the
decode-time clock value because `Message.__init__` evaluates
`time_stamp or time.time()`. -/
theorem message_roundtrip_fails_at_zero_timestamp :
    Message.from_json 5 "f"
      (Message.to_json
        { peer_id := "a", target_user_id := none, message_type := "M",
          data := [], time_stamp := 0, message_id := "x", hop_count := 0,
          path := [Json.str "a"] }) ≠
    some { peer_id := "a", target_user_id := none, message_type := "M",
           data := [], time_stamp := 0, message_id := "x", hop_count := 0,
           path := [Json.str "a"] } := by
  intro h
  have h5 : (5 : Rat) = 0 := congrArg Message.time_stamp (Option.some.inj h)
  norm_num at h5

/-! ### Lexicographic-order helpers -/

theorem lexLe_refl (p : List String) : lexLe p p := Or.inl rfl

theorem lexLt_trans {p q r : List String} (h1 : lexLt p q)
    (h2 : lexLt q r) : lexLt p r := by
  induction h1 generalizing r with
  | nil => cases h2 <;> exact List.Lex.nil
  | cons h ih =>
    cases h2 with
    | cons h2' => exact List.Lex.cons (ih h2')
    | rel hr => exact List.Lex.rel hr
  | rel hr =>
    cases h2 with
    | cons h2' => exact List.Lex.rel hr
    | rel hr2 => exact List.Lex.rel (lt_trans hr hr2)

theorem lexLe_trans {p q r : List String} (h1 : lexLe p q)
    (h2 : lexLe q r) : lexLe p r := by
  rcases h1 with rfl | h1
  · exact h2
  rcases h2 with rfl | h2
  · exact Or.inr h1
  · exact Or.inr (lexLt_trans h1 h2)

theorem lexLt_append_of_lt {p q : List String} (u v : List String) :
    p.length = q.length → lexLt p q → lexLt (p ++ u) (q ++ v) := by
  intro hlen h
  induction h with
  | nil => simp at hlen
  | @cons a l₁ l₂ h ih =>
    exact List.Lex.cons (ih (by simpa using hlen))
  | rel h => exact List.Lex.rel h

theorem lexLe_append_same {p q : List String} (x : String)
    (hlen : p.length = q.length) (h : lexLe p q) :
    lexLe (p ++ [x]) (q ++ [x]) := by
  rcases h with rfl | h
  · exact Or.inl rfl
  · exact Or.inr (lexLt_append_of_lt [x] [x] hlen h)

theorem lexLt_append_rel {c1 c2 : String} (s u v : List String)
    (h : c1 < c2) : lexLt (s ++ c1 :: u) (s ++ c2 :: v) :=
  List.Lex.append_left _ (List.Lex.rel h) s

/-! ### BFS universe helpers -/

theorem mem_foldr_insert_str {lst : List String} {acc : Finset String}
    {x : String} (h : x ∈ acc ∨ x ∈ lst) :
    x ∈ lst.foldr insert acc := by
  induction lst with
  | nil =>
    rcases h with h | h
    · exact h
    · simp at h
  | cons a tl ih =>
    simp only [List.foldr_cons, Finset.mem_insert]
    rcases h with h | h
    · exact Or.inr (ih (Or.inl h))
    · rcases List.mem_cons.mp h with rfl | h
      · exact Or.inl rfl
      · exact Or.inr (ih (Or.inr h))

theorem mem_bfsUniv_foldr {g : List (String × List String)}
    {acc : Finset String} {x : String}
    (h : x ∈ acc ∨ ∃ kv ∈ g, x = kv.1 ∨ x ∈ kv.2) :
    x ∈ g.foldr (fun kv acc => insert kv.1 (kv.2.foldr insert acc)) acc := by
  induction g with
  | nil =>
    rcases h with h | ⟨kv, hkv, -⟩
    · exact h
    · simp at hkv
  | cons kv0 tl ih =>
    simp only [List.foldr_cons, Finset.mem_insert]
    rcases h with h | ⟨kv, hkv, hx⟩
    · exact Or.inr (mem_foldr_insert_str (Or.inl (ih (Or.inl h))))
    · rcases List.mem_cons.mp hkv with rfl | hkv
      · rcases hx with rfl | hx
        · exact Or.inl rfl
        · exact Or.inr (mem_foldr_insert_str (Or.inr hx))
      · exact Or.inr (mem_foldr_insert_str
          (Or.inl (ih (Or.inr ⟨kv, hkv, hx⟩))))

theorem self_mem_bfsUniv (g : List (String × List String))
    (self_id : String) : self_id ∈ bfsUniv g self_id :=
  Finset.mem_insert_self _ _

theorem mem_bfsUniv_of_entry {g : List (String × List String)}
    {self_id : String} {kv : String × List String} (hkv : kv ∈ g)
    {x : String} (hx : x = kv.1 ∨ x ∈ kv.2) : x ∈ bfsUniv g self_id :=
  Finset.mem_insert_of_mem (mem_bfsUniv_foldr (Or.inr ⟨kv, hkv, hx⟩))

theorem neighborsOf_spec {g : List (String × List String)} {a b : String}
    (h : b ∈ neighborsOf g a) :
    ∃ kv ∈ g, kv.1 = a ∧ b ∈ kv.2 := by
  unfold neighborsOf at h
  cases hf : g.find? (fun kv => kv.1 == a) with
  | none => rw [hf] at h; simp at h
  | some kv =>
    rw [hf] at h
    have h1 := List.mem_of_find?_eq_some hf
    have h2 := List.find?_some hf
    exact ⟨kv, h1, by simpa using h2, h⟩

theorem nbr_mem_bfsUniv {g : List (String × List String)}
    {self_id a b : String} (h : b ∈ neighborsOf g a) :
    b ∈ bfsUniv g self_id := by
  obtain ⟨kv, hkv, -, hb⟩ := neighborsOf_spec h
  exact mem_bfsUniv_of_entry hkv (Or.inr hb)

theorem neighborsOf_length_le (g : List (String × List String))
    (a : String) : (neighborsOf g a).length ≤ totalAdj g := by
  unfold neighborsOf
  cases hf : g.find? (fun kv => kv.1 == a) with
  | none => simp
  | some kv =>
    have h1 := List.mem_of_find?_eq_some hf
    have h2 : kv.2.length ∈
        (g.map (fun kv : String × List String => kv.2.length)) :=
      List.mem_map_of_mem _ h1
    exact List.single_le_sum (fun x _ => Nat.zero_le x) _ h2

theorem foldr_insert_card_le (lst : List String) (acc : Finset String) :
    (lst.foldr insert acc).card ≤ lst.length + acc.card := by
  induction lst with
  | nil => simp
  | cons a tl ih =>
    simp only [List.foldr_cons, List.length_cons]
    calc (insert a (tl.foldr insert acc)).card
        ≤ (tl.foldr insert acc).card + 1 := Finset.card_insert_le _ _
      _ ≤ tl.length + acc.card + 1 := by omega
      _ = tl.length + 1 + acc.card := by omega

theorem bfsUniv_card_le (g : List (String × List String))
    (self_id : String) :
    (bfsUniv g self_id).card ≤ 1 + g.length + totalAdj g := by
  have haux : ∀ (l : List (String × List String)) (acc : Finset String),
      (l.foldr (fun kv acc => insert kv.1 (kv.2.foldr insert acc))
        acc).card ≤ l.length + (l.map (fun kv => kv.2.length)).sum +
        acc.card := by
    intro l
    induction l with
    | nil => intro acc; simp
    | cons kv tl ih =>
      intro acc
      simp only [List.foldr_cons, List.length_cons, List.map_cons,
        List.sum_cons]
      have h1 : (insert kv.1 (kv.2.foldr insert
          (tl.foldr (fun (kv : String × List String) (acc : Finset String)
              => insert kv.1 (kv.2.foldr insert acc)) acc))).card ≤
          (kv.2.foldr insert
            (tl.foldr (fun (kv : String × List String) (acc : Finset String)
              => insert kv.1 (kv.2.foldr insert acc)) acc)).card + 1 :=
        Finset.card_insert_le _ _
      have h2 := foldr_insert_card_le kv.2
        (tl.foldr (fun (kv : String × List String) (acc : Finset String)
          => insert kv.1 (kv.2.foldr insert acc)) acc)
      have h3 := ih acc
      omega
  have h4 := haux g ∅
  have h5 : (bfsUniv g self_id).card ≤
      (g.foldr (fun (kv : String × List String) (acc : Finset String)
        => insert kv.1 (kv.2.foldr insert acc)) ∅).card + 1 :=
    Finset.card_insert_le _ _
  unfold totalAdj
  simp only [Finset.card_empty] at h4
  omega

/-! ### Path facts -/

theorem IsPathND.ne_nil {g : List (String × List String)} {s t : String}
    {p : List String} (h : IsPathND g s t p) : p ≠ [] := by
  intro hnil
  rw [hnil] at h
  exact Option.noConfusion h.1

theorem IsPathND.length_pos {g : List (String × List String)}
    {s t : String} {p : List String} (h : IsPathND g s t p) :
    0 < p.length :=
  List.length_pos.mpr h.ne_nil

theorem IsPathND.getElem?_zero {g : List (String × List String)}
    {s t : String} {p : List String} (h : IsPathND g s t p) :
    p[0]? = some s := by
  rw [← List.head?_eq_getElem?]
  exact h.1

theorem IsPathND.getElem?_last {g : List (String × List String)}
    {s t : String} {p : List String} (h : IsPathND g s t p) :
    p[p.length - 1]? = some t := by
  rw [← List.getLast?_eq_getElem?]
  exact h.2.1

theorem IsPathND.edge {g : List (String × List String)} {s t : String}
    {p : List String} (h : IsPathND g s t p) {j : Nat} {a b : String}
    (ha : p[j]? = some a) (hb : p[j + 1]? = some b) :
    b ∈ neighborsOf g a := by
  obtain ⟨hjb, hgb⟩ := List.getElem?_eq_some_iff.mp hb
  obtain ⟨hja, hga⟩ := List.getElem?_eq_some_iff.mp ha
  have hc := List.chain'_iff_get.mp h.2.2.1 j (by omega)
  rw [List.get_eq_getElem, List.get_eq_getElem] at hc
  rw [← hga, ← hgb]
  exact hc

theorem IsPathND.getElem?_inj {g : List (String × List String)}
    {s t : String} {p : List String} (h : IsPathND g s t p) {i j : Nat}
    {x : String} (hi : p[i]? = some x) (hj : p[j]? = some x) : i = j := by
  obtain ⟨hib, hig⟩ := List.getElem?_eq_some_iff.mp hi
  obtain ⟨hjb, hjg⟩ := List.getElem?_eq_some_iff.mp hj
  exact (List.Nodup.getElem_inj_iff h.2.2.2).mp (by rw [hig, hjg])

theorem IsPathND.one_lt_length {g : List (String × List String)}
    {s t : String} {p : List String} (h : IsPathND g s t p)
    (hne : s ≠ t) : 1 < p.length := by
  rcases Nat.lt_or_ge 1 p.length with h1 | h1
  · exact h1
  · exfalso
    have hlen : p.length = 1 := by
      have := h.length_pos
      omega
    have h0 := h.getElem?_zero
    have hl := h.getElem?_last
    rw [hlen] at hl
    simp only [Nat.sub_self] at hl
    rw [h0] at hl
    exact hne (Option.some.inj hl)

theorem entLe_refl (a : String × List String) : entLe a a :=
  Or.inr ⟨rfl, lexLe_refl _⟩

theorem entLe_length {a b : String × List String} (h : entLe a b) :
    a.2.length ≤ b.2.length := by
  rcases h with h | ⟨h, -⟩
  · omega
  · omega

theorem entLe_lexLe {a b : String × List String} (h : entLe a b)
    (hlen : a.2.length = b.2.length) : lexLe a.2 b.2 := by
  rcases h with h | ⟨-, h⟩
  · omega
  · exact h

theorem mem_childrenOf {g : List (String × List String)} {n : String}
    {p : List String} {ex : List String} {e : String × List String} :
    e ∈ childrenOf g n p ex ↔
      ∃ c, c ∈ neighborsOf g n ∧ c ∉ (n :: ex) ∧ e = (c, p ++ [c]) := by
  unfold childrenOf
  simp only [List.mem_map, List.mem_filter, decide_not,
    Bool.not_eq_true', decide_eq_false_iff_not]
  constructor
  · rintro ⟨c, ⟨h1, h2⟩, h3⟩
    exact ⟨c, h1, h2, h3.symm⟩
  · rintro ⟨c, h1, h2, h3⟩
    exact ⟨c, ⟨h1, h2⟩, h3.symm⟩

theorem neighborsOf_pairwise {g : List (String × List String)}
    (hsort : ∀ kv ∈ g, kv.2.Pairwise (· < ·)) (nd : String) :
    (neighborsOf g nd).Pairwise (· < ·) := by
  unfold neighborsOf
  cases hf : g.find? (fun kv => kv.1 == nd) with
  | none => simp
  | some kv => exact hsort kv (List.mem_of_find?_eq_some hf)

theorem bfsInv_skip {g : List (String × List String)}
    {self_id target n : String} {p : List String}
    {rest : List (String × List String)} {ex : List String}
    (hInv : BfsInv g self_id target ((n, p) :: rest) ex) (hn : n ∈ ex) :
    BfsInv g self_id target rest ex := by
  have hpair := List.pairwise_cons.mp hInv.sorted2
  refine ⟨fun e he => hInv.valid e (List.mem_cons_of_mem _ he),
    fun e he => hInv.prefixEx e (List.mem_cons_of_mem _ he),
    hInv.exNodup, hInv.exU,
    fun e he => hInv.frU e (List.mem_cons_of_mem _ he),
    hInv.targetNE, hpair.2,
    fun e he f hf => hInv.twoLevel e (List.mem_cons_of_mem _ he) f
      (List.mem_cons_of_mem _ hf),
    (List.pairwise_cons.mp hInv.distinctPaths).2,
    fun e he f hf => hInv.parentNotIn e (List.mem_cons_of_mem _ he) f
      (List.mem_cons_of_mem _ hf),
    ?_, ?_⟩
  · -- parentLe for the new head
    intro f₀ hf₀ e he hlen
    have hf₀mem : f₀ ∈ rest := by
      rcases rest with - | ⟨a, tl⟩
      · exact Option.noConfusion hf₀
      · rw [show (a :: tl).head? = some a from rfl] at hf₀
        exact (Option.some.inj hf₀) ▸ List.mem_cons_self a tl
    have h1 : entLe (n, p) f₀ := hpair.1 f₀ hf₀mem
    have h2 : f₀.2.length ≤ p.length + 1 := hInv.twoLevel f₀
      (List.mem_cons_of_mem _ hf₀mem) (n, p) (List.mem_cons_self _ _)
    have h3 : e.2.length ≤ p.length + 1 := hInv.twoLevel e
      (List.mem_cons_of_mem _ he) (n, p) (List.mem_cons_self _ _)
    have h4 : p.length ≤ f₀.2.length := entLe_length h1
    have h5 : f₀.2.length = p.length := by omega
    have h6 : e.2.length = p.length + 1 := by omega
    have h7 := hInv.parentLe (n, p) rfl e (List.mem_cons_of_mem _ he)
      (by simpa using h6)
    exact lexLe_trans h7 (entLe_lexLe h1 h5.symm)
  · -- cover survives: its witness is never the explored popped entry
    intro q hq
    obtain ⟨k, e, he, hex, hk, hlen, hlex, hsuf⟩ := hInv.cover q hq
    have he' : e ∈ rest := by
      rcases List.mem_cons.mp he with rfl | he'
      · exact absurd hn hex
      · exact he'
    exact ⟨k, e, he', hex, hk, hlen, hlex, hsuf⟩

theorem bfsInv_step {g : List (String × List String)}
    {self_id target : String}
    (hsort : ∀ kv ∈ g, kv.2.Pairwise (· < ·))
    {n : String} {p : List String} {rest : List (String × List String)}
    {ex : List String}
    (hInv : BfsInv g self_id target ((n, p) :: rest) ex)
    (hnx : n ∉ ex) (hnt : n ≠ target) :
    BfsInv g self_id target (rest ++ childrenOf g n p ex) (n :: ex) := by
  have hpair := List.pairwise_cons.mp hInv.sorted2
  have hdist := List.pairwise_cons.mp hInv.distinctPaths
  have hvf : IsPathND g self_id n p :=
    hInv.valid (n, p) (List.mem_cons_self _ _)
  have hpne : p ≠ [] := hvf.ne_nil
  have hplast : p.getLast? = some n := hvf.2.1
  have hpsplit : p.dropLast ++ [n] = p :=
    List.dropLast_append_getLast? n hplast
  have hpdrop : ∀ x ∈ p.dropLast, x ∈ ex :=
    hInv.prefixEx (n, p) (List.mem_cons_self _ _)
  have hmem_p : ∀ x ∈ p, x ∈ n :: ex := by
    intro x hx
    rw [← hpsplit] at hx
    rcases List.mem_append.mp hx with hx | hx
    · exact List.mem_cons_of_mem _ (hpdrop x hx)
    · rw [List.mem_singleton] at hx
      exact hx ▸ List.mem_cons_self _ _
  have hchlen : ∀ e ∈ childrenOf g n p ex, e.2.length = p.length + 1 := by
    intro e he
    obtain ⟨c, -, -, rfl⟩ := mem_childrenOf.mp he
    simp
  have hchdrop : ∀ e ∈ childrenOf g n p ex, e.2.dropLast = p := by
    intro e he
    obtain ⟨c, -, -, rfl⟩ := mem_childrenOf.mp he
    exact List.dropLast_concat
  have hlen_rest_le : ∀ e ∈ rest, e.2.length ≤ p.length + 1 := fun e he =>
    hInv.twoLevel e (List.mem_cons_of_mem _ he) (n, p)
      (List.mem_cons_self _ _)
  have hlen_rest_ge : ∀ e ∈ rest, p.length ≤ e.2.length := fun e he =>
    entLe_length (hpair.1 e he)
  have hchvalid : ∀ e ∈ childrenOf g n p ex, IsPathND g self_id e.1 e.2 := by
    intro e he
    obtain ⟨c, hcn, hcex, rfl⟩ := mem_childrenOf.mp he
    refine ⟨?_, ?_, ?_, ?_⟩
    · rcases p with - | ⟨a, p'⟩
      · exact absurd rfl hpne
      · exact hvf.1
    · exact List.getLast?_concat _
    · rw [List.chain'_append]
      refine ⟨hvf.2.2.1, List.chain'_singleton _, ?_⟩
      intro x hx y hy
      rw [hplast, Option.mem_some_iff] at hx
      rw [show ([c] : List String).head? = some c from rfl,
        Option.mem_some_iff] at hy
      subst hx
      subst hy
      exact hcn
    · have hcp : c ∉ p := fun hmem => hcex (hmem_p c hmem)
      simp [List.nodup_append, hvf.2.2.2, hcp]
  -- the lexicographic comparison of a length-(d+1) rest entry with a child
  have hrest_lt_child : ∀ e ∈ rest, e.2.length = p.length + 1 →
      ∀ c, lexLt e.2 (p ++ [c]) := by
    intro e he hel c
    have hvE : IsPathND g self_id e.1 e.2 :=
      hInv.valid e (List.mem_cons_of_mem _ he)
    have hEne : e.2 ≠ [] := hvE.ne_nil
    have hEsplit : e.2.dropLast ++ [e.2.getLast hEne] = e.2 :=
      List.dropLast_append_getLast hEne
    have h1 : lexLe e.2.dropLast p :=
      hInv.parentLe (n, p) rfl e (List.mem_cons_of_mem _ he) hel
    have h2 : e.2.dropLast ≠ p :=
      hInv.parentNotIn e (List.mem_cons_of_mem _ he) (n, p)
        (List.mem_cons_self _ _)
    have h3 : lexLt e.2.dropLast p := by
      rcases h1 with h1 | h1
      · exact absurd h1 h2
      · exact h1
    have hlendl : e.2.dropLast.length = p.length := by
      have := List.length_dropLast e.2
      omega
    rw [← hEsplit]
    exact lexLt_append_of_lt _ _ hlendl h3
  constructor
  -- valid
  · intro e he
    rcases List.mem_append.mp he with he | he
    · exact hInv.valid e (List.mem_cons_of_mem _ he)
    · exact hchvalid e he
  -- prefixEx
  · intro e he x hx
    rcases List.mem_append.mp he with he | he
    · exact List.mem_cons_of_mem _
        (hInv.prefixEx e (List.mem_cons_of_mem _ he) x hx)
    · rw [hchdrop e he] at hx
      exact hmem_p x hx
  -- exNodup
  · exact List.nodup_cons.mpr ⟨hnx, hInv.exNodup⟩
  -- exU
  · intro x hx
    rcases List.mem_cons.mp hx with h | hx
    · rw [h]
      exact hInv.frU (n, p) (List.mem_cons_self _ _)
    · exact hInv.exU x hx
  -- frU
  · intro e he
    rcases List.mem_append.mp he with he | he
    · exact hInv.frU e (List.mem_cons_of_mem _ he)
    · obtain ⟨c, hcn, -, rfl⟩ := mem_childrenOf.mp he
      exact nbr_mem_bfsUniv hcn
  -- targetNE
  · intro hx
    rcases List.mem_cons.mp hx with rfl | hx
    · exact hnt rfl
    · exact hInv.targetNE hx
  -- sorted2
  · rw [List.pairwise_append]
    refine ⟨hpair.2, ?_, ?_⟩
    · -- children pairwise
      unfold childrenOf
      rw [List.pairwise_map]
      refine List.Pairwise.imp ?_
        (((neighborsOf_pairwise hsort n).filter _))
      intro c1 c2 hc
      exact Or.inr ⟨by simp, Or.inr (lexLt_append_rel p [] [] hc)⟩
    · -- rest before children
      intro e he e' he'
      obtain ⟨c, -, -, rfl⟩ := mem_childrenOf.mp he'
      have h1 := hlen_rest_le e he
      have h2 := hlen_rest_ge e he
      rcases Nat.lt_or_ge e.2.length (p.length + 1) with hlt | hge
      · exact Or.inl (by simp; omega)
      · have hel : e.2.length = p.length + 1 := by omega
        exact Or.inr ⟨by simp; omega,
          Or.inr (hrest_lt_child e he hel c)⟩
  -- twoLevel
  · intro e he f hf
    rcases List.mem_append.mp he with he | he <;>
      rcases List.mem_append.mp hf with hf | hf
    · exact hInv.twoLevel e (List.mem_cons_of_mem _ he) f
        (List.mem_cons_of_mem _ hf)
    · have h1 := hlen_rest_le e he
      have h2 := hchlen f hf
      omega
    · have h1 := hchlen e he
      have h2 := hlen_rest_ge f hf
      omega
    · have h1 := hchlen e he
      have h2 := hchlen f hf
      omega
  -- distinctPaths
  · rw [List.pairwise_append]
    refine ⟨hdist.2, ?_, ?_⟩
    · unfold childrenOf
      rw [List.pairwise_map]
      refine List.Pairwise.imp ?_
        (((neighborsOf_pairwise hsort n).filter _))
      intro c1 c2 hc heq
      have : c1 = c2 := by simpa using heq
      exact absurd this (ne_of_lt hc)
    · intro e he e' he' heq
      obtain ⟨c, -, -, rfl⟩ := mem_childrenOf.mp he'
      have : e.2.dropLast = p := by
        rw [heq]
        exact List.dropLast_concat
      exact hInv.parentNotIn e (List.mem_cons_of_mem _ he) (n, p)
        (List.mem_cons_self _ _) this
  -- parentNotIn
  · intro e he f hf
    rcases List.mem_append.mp he with he | he <;>
      rcases List.mem_append.mp hf with hf | hf
    · exact hInv.parentNotIn e (List.mem_cons_of_mem _ he) f
        (List.mem_cons_of_mem _ hf)
    · -- e in rest, f a child: lengths differ
      intro heq
      have h1 := hlen_rest_le e he
      have h2 := hchlen f hf
      have h3 := congrArg List.length heq
      have h4 := List.length_dropLast e.2
      have h5 : e.2 ≠ [] :=
        (hInv.valid e (List.mem_cons_of_mem _ he)).ne_nil
      have h6 : 0 < e.2.length := List.length_pos.mpr h5
      omega
    · -- e a child: dropLast = p, f in rest: p ≠ f.2
      rw [hchdrop e he]
      exact hdist.1 f hf
    · -- both children: lengths differ
      intro heq
      have h1 := hchlen e he
      have h2 := hchlen f hf
      have h3 := congrArg List.length heq
      have h4 := List.length_dropLast e.2
      omega
  -- parentLe
  · intro f₀ hf₀ e he hlen
    cases hrest : rest with
    | nil =>
      subst hrest
      have hf₀ch : f₀ ∈ childrenOf g n p ex := by
        have h0 : (childrenOf g n p ex).head? = some f₀ := by
          simpa using hf₀
        exact List.mem_of_mem_head?
          (show f₀ ∈ (childrenOf g n p ex).head? by rw [h0]; rfl)
      have h1 := hchlen f₀ hf₀ch
      have h2 : e ∈ childrenOf g n p ex := by simpa using he
      have h3 := hchlen e h2
      omega
    | cons f₁ rest' =>
      subst hrest
      have hf₀eq : f₀ = f₁ := by
        rw [show ((f₁ :: rest') ++ childrenOf g n p ex).head? = some f₁
          from rfl] at hf₀
        exact (Option.some.inj hf₀).symm
      rw [hf₀eq] at hlen ⊢
      have hf₁r : f₁ ∈ f₁ :: rest' := List.mem_cons_self _ _
      have h1 : entLe (n, p) f₁ := hpair.1 f₁ hf₁r
      have h2 := hlen_rest_le f₁ hf₁r
      have h3 : p.length ≤ f₁.2.length := entLe_length h1
      rcases Nat.lt_or_ge p.length f₁.2.length with hlt | hge
      · -- f₁ one longer than p: nothing can be one longer than f₁
        exfalso
        have hf₁l : f₁.2.length = p.length + 1 := by omega
        rcases List.mem_append.mp he with he | he
        · have := hlen_rest_le e he
          omega
        · have := hchlen e he
          omega
      · have hf₁l : f₁.2.length = p.length := by omega
        have hlex_pf₁ : lexLe p f₁.2 := entLe_lexLe h1 hf₁l.symm
        rcases List.mem_append.mp he with he | he
        · have h4 := hInv.parentLe (n, p) rfl e
            (List.mem_cons_of_mem _ he) (by rw [hlen, hf₁l])
          exact lexLe_trans h4 hlex_pf₁
        · rw [hchdrop e he]
          exact hlex_pf₁
  -- cover
  · intro q hq
    obtain ⟨k, e, he, hex, hk, hlen, hlex, hsuf⟩ := hInv.cover q hq
    by_cases hj : ∃ j, k ≤ j ∧ q[j]? = some n
    · obtain ⟨j, hkj, hjn⟩ := hj
      have hjq : j < q.length := (List.getElem?_eq_some_iff.mp hjn).1
      have hqlast := hq.getElem?_last
      have hjne : j ≠ q.length - 1 := by
        intro hcontra
        rw [hcontra] at hjn
        rw [hjn] at hqlast
        exact hnt (Option.some.inj hqlast)
      have hj1 : j + 1 < q.length := by omega
      have hx : q[j + 1]? = some (q.get ⟨j + 1, hj1⟩) := by
        rw [List.get_eq_getElem]
        exact List.getElem?_eq_getElem hj1
      set x := q.get ⟨j + 1, hj1⟩ with hxdef
      have hxn : x ∈ neighborsOf g n := hq.edge hjn hx
      have hxex : x ∉ ex := hsuf (j + 1) x (by omega) hx
      have hxne : x ≠ n := by
        intro hcontra
        rw [hcontra] at hx
        have := hq.getElem?_inj hx hjn
        omega
      have hxmem : (x, p ++ [x]) ∈ childrenOf g n p ex :=
        mem_childrenOf.mpr ⟨x, hxn, by simp [hxne, hxex], rfl⟩
      have hhead : entLe (n, p) e := by
        rcases List.mem_cons.mp he with heq | he'
        · rw [heq]; exact entLe_refl _
        · exact hpair.1 e he'
      have hple : p.length ≤ e.2.length := entLe_length hhead
      have hdk : p.length ≤ k + 1 := by omega
      refine ⟨j + 1, (x, p ++ [x]),
        List.mem_append_right _ hxmem, by simp [hxne, hxex], hx,
        by simp; omega, ?_, ?_⟩
      · -- lex clause: only fires when k = j and everything is tight
        intro hl
        have hpl : p.length = j + 1 := by simpa using hl
        have hkj' : k = j := by omega
        subst hkj'
        have hel : e.2.length = k + 1 := by omega
        have h4 := hlex hel
        have h5 : lexLe p e.2 :=
          entLe_lexLe hhead (show p.length = e.2.length by omega)
        have h6 : lexLe p (q.take (k + 1)) := lexLe_trans h5 h4
        have h7 : q.take (k + 2) = q.take (k + 1) ++ [x] := by
          rw [List.take_succ, hx]
          rfl
        rw [h7]
        refine lexLe_append_same x ?_ h6
        rw [List.length_take]
        omega
      · intro i x' hi hx'
        intro hcontra
        rcases List.mem_cons.mp hcontra with rfl | hmem
        · have := hq.getElem?_inj hx' hjn
          omega
        · exact hsuf i x' (by omega) hx' hmem
    · -- the popped node does not occur in q at or after k
      push_neg at hj
      have hne : e.1 ≠ n := by
        intro hcontra
        exact absurd (hcontra ▸ hk) (hj k le_rfl)
      have he' : e ∈ rest := by
        rcases List.mem_cons.mp he with heq | he'
        · exact absurd (by rw [heq]) hne
        · exact he'
      refine ⟨k, e, List.mem_append_left _ he', ?_, hk, hlen, hlex, ?_⟩
      · intro hcontra
        rcases List.mem_cons.mp hcontra with heq | hmem
        · exact hne heq
        · exact hex hmem
      · intro i x' hi hx'
        intro hcontra
        rcases List.mem_cons.mp hcontra with rfl | hmem
        · exact absurd hx' (hj i (by omega))
        · exact hsuf i x' hi hx' hmem

theorem bfs_pop_target {g : List (String × List String)}
    {self_id target : String} {p : List String}
    {rest : List (String × List String)} {ex : List String}
    (hInv : BfsInv g self_id target ((target, p) :: rest) ex) :
    IsPathND g self_id target p ∧
    ∀ q, IsPathND g self_id target q →
      p.length ≤ q.length ∧ (q.length = p.length → lexLe p q) := by
  have hvf := hInv.valid (target, p) (List.mem_cons_self _ _)
  refine ⟨hvf, ?_⟩
  intro q hq
  obtain ⟨k, e, he, hex, hk, hlen, hlex, hsuf⟩ := hInv.cover q hq
  have hkq : k < q.length := (List.getElem?_eq_some_iff.mp hk).1
  have hfe : entLe (target, p) e := by
    rcases List.mem_cons.mp he with rfl | he'
    · exact entLe_refl _
    · exact (List.pairwise_cons.mp hInv.sorted2).1 e he'
  have h1 : p.length ≤ e.2.length := entLe_length hfe
  constructor
  · omega
  · intro hql
    have h2 : e.2.length = k + 1 := by omega
    have h3 : k + 1 = q.length := by omega
    have h4 : lexLe e.2 (q.take (k + 1)) := hlex h2
    rw [h3, List.take_length] at h4
    exact lexLe_trans
      (entLe_lexLe hfe (show p.length = e.2.length by omega)) h4

theorem bfsInv_init {g : List (String × List String)}
    {self_id target : String} (hnt : target ≠ self_id) :
    BfsInv g self_id target [(self_id, [self_id])] [] := by
  constructor
  · intro e he
    rw [List.mem_singleton] at he
    subst he
    exact ⟨rfl, rfl, List.chain'_singleton _, List.nodup_singleton _⟩
  · intro e he x hx
    rw [List.mem_singleton] at he
    subst he
    simp at hx
  · exact List.nodup_nil
  · intro x hx
    simp at hx
  · intro e he
    rw [List.mem_singleton] at he
    subst he
    exact self_mem_bfsUniv g self_id
  · simp
  · simp
  · intro e he f hf
    rw [List.mem_singleton] at he hf
    subst he
    subst hf
    simp
  · simp
  · intro e he f hf
    rw [List.mem_singleton] at he hf
    subst he
    subst hf
    simp
  · intro f hf e he hlen
    rw [show ([(self_id, [self_id])] :
      List (String × List String)).head? = some (self_id, [self_id])
      from rfl] at hf
    obtain rfl := Option.some.inj hf
    rw [List.mem_singleton] at he
    subst he
    simp at hlen
  · intro q hq
    refine ⟨0, (self_id, [self_id]), List.mem_singleton_self _,
      by simp, ?_, by simp, ?_, by simp⟩
    · rw [← List.head?_eq_getElem?]
      exact hq.1
    · intro hdummy
      rcases hq' : q with - | ⟨a, q'⟩
      · rw [hq'] at hq
        exact absurd hq.1 (by simp)
      · have ha : a = self_id := by
          rw [hq'] at hq
          exact Option.some.inj hq.1
        subst ha
        exact Or.inl rfl

theorem bfsAux_sound {g : List (String × List String)}
    {self_id target : String}
    (hsort : ∀ kv ∈ g, kv.2.Pairwise (· < ·)) :
    ∀ (fuel : Nat) (fr : List (String × List String)) (ex : List String),
      BfsInv g self_id target fr ex →
      ∀ p, bfsAux g target fuel fr ex = some p →
        IsPathND g self_id target p ∧
        ∀ q, IsPathND g self_id target q →
          p.length ≤ q.length ∧ (q.length = p.length → lexLe p q) := by
  intro fuel
  induction fuel with
  | zero =>
    intro fr ex hInv p h
    simp [bfsAux] at h
  | succ fuel ih =>
    intro fr ex hInv p h
    rcases fr with - | ⟨⟨nn, pp⟩, rest⟩
    · simp [bfsAux] at h
    · rw [bfsAux] at h
      by_cases h1 : nn ∈ ex
      · rw [if_pos h1] at h
        exact ih rest ex (bfsInv_skip hInv h1) p h
      · rw [if_neg h1] at h
        by_cases h2 : nn = target
        · rw [if_pos h2] at h
          have hp : pp = p := Option.some.inj h
          subst hp
          subst h2
          exact bfs_pop_target hInv
        · rw [if_neg h2] at h
          exact ih _ _ (bfsInv_step hsort hInv h1 h2) p h

theorem nodup_length_le_card (l : List String) (s : Finset String)
    (hnd : l.Nodup) (hsub : ∀ x ∈ l, x ∈ s) : l.length ≤ s.card := by
  classical
  have h1 : l.toFinset.card = l.length := List.toFinset_card_of_nodup hnd
  rw [← h1]
  exact Finset.card_le_card (fun x hx => hsub x (List.mem_toFinset.mp hx))

theorem bfsAux_complete {g : List (String × List String)}
    {self_id target : String}
    (hsort : ∀ kv ∈ g, kv.2.Pairwise (· < ·)) :
    ∀ (fuel : Nat) (fr : List (String × List String)) (ex : List String),
      BfsInv g self_id target fr ex →
      (∃ q, IsPathND g self_id target q) →
      bfsMeasure g self_id fr ex ≤ fuel →
      (bfsAux g target fuel fr ex).isSome = true := by
  intro fuel
  induction fuel with
  | zero =>
    intro fr ex hInv hq hm
    exfalso
    obtain ⟨q, hq'⟩ := hq
    obtain ⟨k, e, he, -⟩ := hInv.cover q hq'
    have hfr : fr.length = 0 := by
      unfold bfsMeasure at hm
      omega
    rw [List.length_eq_zero] at hfr
    subst hfr
    simp at he
  | succ fuel ih =>
    intro fr ex hInv hq hm
    rcases fr with - | ⟨⟨nn, pp⟩, rest⟩
    · exfalso
      obtain ⟨q, hq'⟩ := hq
      obtain ⟨k, e, he, -⟩ := hInv.cover q hq'
      simp at he
    · rw [bfsAux]
      by_cases h1 : nn ∈ ex
      · rw [if_pos h1]
        apply ih rest ex (bfsInv_skip hInv h1) hq
        unfold bfsMeasure at hm ⊢
        rw [List.length_cons] at hm
        omega
      · rw [if_neg h1]
        by_cases h2 : nn = target
        · rw [if_pos h2]
          rfl
        · rw [if_neg h2]
          apply ih _ _ (bfsInv_step hsort hInv h1 h2) hq
          show bfsMeasure g self_id
            (rest ++ childrenOf g nn pp ex) (nn :: ex) ≤ fuel
          have hU : nn ∈ bfsUniv g self_id :=
            hInv.frU (nn, pp) (List.mem_cons_self _ _)
          have hexlen : ex.length + 1 ≤ (bfsUniv g self_id).card := by
            have := nodup_length_le_card (nn :: ex) (bfsUniv g self_id)
              (List.nodup_cons.mpr ⟨h1, hInv.exNodup⟩) ?_
            · rw [List.length_cons] at this
              omega
            · intro x hx
              rcases List.mem_cons.mp hx with h | h
              · rw [h]; exact hU
              · exact hInv.exU x h
          have hchbound : (childrenOf g nn pp ex).length ≤ totalAdj g := by
            unfold childrenOf
            rw [List.length_map]
            calc (List.filter (fun m => ¬ (m ∈ nn :: ex) : String → Bool)
                  (neighborsOf g nn)).length
                ≤ (neighborsOf g nn).length := List.length_filter_le _ _
              _ ≤ totalAdj g := neighborsOf_length_le g nn
          unfold bfsMeasure at hm ⊢
          rw [List.length_cons] at hm
          rw [List.length_append, List.length_cons]
          have hsub : (bfsUniv g self_id).card - ex.length =
              ((bfsUniv g self_id).card - (ex.length + 1)) + 1 := by
            omega
          rw [hsub] at hm
          rw [Nat.succ_mul] at hm
          omega

theorem graphHasKey_of_nbrs_ne_nil {g : List (String × List String)}
    {t : String} (h : neighborsOf g t ≠ []) : graphHasKey g t = true := by
  unfold neighborsOf at h
  cases hf : g.find? (fun kv => kv.1 == t) with
  | none =>
    rw [hf] at h
    simp at h
  | some kv =>
    unfold graphHasKey
    rw [List.any_eq_true]
    have hp := List.find?_some hf
    exact ⟨kv, List.mem_of_find?_eq_some hf, hp⟩

theorem BFS_path_finding_sound {g : List (String × List String)}
    {self_id target : String}
    (hsort : ∀ kv ∈ g, kv.2.Pairwise (· < ·))
    (hnt : target ≠ self_id) :
    ∀ p, Router.BFS_path_finding g self_id target = some p →
      IsPathND g self_id target p ∧
      ∀ q, IsPathND g self_id target q →
        p.length ≤ q.length ∧ (q.length = p.length → lexLe p q) := by
  intro p h
  unfold Router.BFS_path_finding at h
  rw [if_neg hnt] at h
  by_cases h2 : graphHasKey g target
  · rw [if_neg (by simpa using h2)] at h
    exact bfsAux_sound hsort (bfsFuel g) _ _ (bfsInv_init hnt) p h
  · rw [if_pos (by simpa using h2)] at h
    exact Option.noConfusion h

theorem BFS_path_finding_complete {g : List (String × List String)}
    {self_id target : String}
    (hsort : ∀ kv ∈ g, kv.2.Pairwise (· < ·))
    (hsym : ∀ kv ∈ g, ∀ v ∈ kv.2, kv.1 ∈ neighborsOf g v)
    (hnt : target ≠ self_id)
    (hex : ∃ q, IsPathND g self_id target q) :
    (Router.BFS_path_finding g self_id target).isSome = true := by
  obtain ⟨q, hq⟩ := hex
  have hlen : 1 < q.length := hq.one_lt_length (Ne.symm hnt)
  -- the edge into the target shows the target is a key of the graph
  have hu : q[q.length - 2]? = some (q.get ⟨q.length - 2, by omega⟩) := by
    rw [List.get_eq_getElem]
    exact List.getElem?_eq_getElem (by omega)
  have hv : q[q.length - 2 + 1]? = some target := by
    have : q.length - 2 + 1 = q.length - 1 := by omega
    rw [this]
    exact hq.getElem?_last
  have hedge : target ∈ neighborsOf g (q.get ⟨q.length - 2, by omega⟩) :=
    hq.edge hu hv
  obtain ⟨kv, hkv, hkva, htkv⟩ := neighborsOf_spec hedge
  have hback : kv.1 ∈ neighborsOf g target := hsym kv hkv target htkv
  have hkey : graphHasKey g target = true :=
    graphHasKey_of_nbrs_ne_nil (List.ne_nil_of_mem hback)
  unfold Router.BFS_path_finding
  rw [if_neg hnt, if_neg (by simpa using hkey)]
  apply bfsAux_complete hsort (bfsFuel g) _ _ (bfsInv_init hnt) ⟨q, hq⟩
  unfold bfsMeasure bfsFuel
  have h1 := bfsUniv_card_le g self_id
  have h2 : ((bfsUniv g self_id).card - 0) * (1 + totalAdj g) ≤
      (1 + g.length + totalAdj g) * (1 + totalAdj g) := by
    apply Nat.mul_le_mul_right
    omega
  simp only [List.length_cons, List.length_nil]
  omega

theorem get_next_hop_of_path {self_id : String} {p : List String}
    (hhead : p.head? = some self_id) (hlen : 1 < p.length) :
    Router.get_next_hop self_id p = p[1]? := by
  rcases p with - | ⟨a, p'⟩
  · exact Option.noConfusion hhead
  · have ha : a = self_id := Option.some.inj hhead
    subst ha
    unfold Router.get_next_hop
    rw [List.findIdx?_cons]
    simp only [beq_self_eq_true, if_true]
    rw [List.length_cons] at hlen ⊢
    rw [if_neg (by omega)]
    rw [List.get?_eq_getElem?]

theorem find_map_subst (k v : String) :
    ∀ l : List (String × String), (∃ kv0 ∈ l, (kv0.1 == k) = true) →
    (((l.map (fun kv => if kv.1 == k then (k, v) else kv)).find?
      (fun kv => kv.1 == k)).map (fun x => x.2)) = some v := by
  intro l
  induction l with
  | nil =>
    rintro ⟨kv0, h, -⟩
    simp at h
  | cons a tl ih =>
    rintro ⟨kv0, hmem, hk0⟩
    by_cases ha : (a.1 == k) = true
    · simp only [List.map_cons]
      rw [if_pos ha, List.find?_cons_of_pos
        (List.map (fun kv => if kv.1 == k then (k, v) else kv) tl)
        (show (fun kv : String × String => kv.1 == k) (k, v) = true
          from by simp)]
      rfl
    · have htl : ∃ kv0 ∈ tl, (kv0.1 == k) = true := by
        rcases List.mem_cons.mp hmem with rfl | hmem'
        · exact absurd hk0 ha
        · exact ⟨kv0, hmem', hk0⟩
      simp only [List.map_cons]
      rw [if_neg ha, List.find?_cons_of_neg
        (List.map (fun kv => if kv.1 == k then (k, v) else kv) tl)
        (show ¬ (fun kv : String × String => kv.1 == k) a = true
          from by simpa using ha)]
      exact ih htl

theorem find_map_subst_ne (k v k' : String) (h : k ≠ k') :
    ∀ l : List (String × String),
    ((l.map (fun kv => if kv.1 == k then (k, v) else kv)).find?
      (fun kv => kv.1 == k')) = l.find? (fun kv => kv.1 == k') := by
  intro l
  induction l with
  | nil => rfl
  | cons a tl ih =>
    by_cases ha : (a.1 == k) = true
    · have ha' : a.1 = k := by simpa using ha
      simp only [List.map_cons]
      rw [if_pos ha, List.find?_cons_of_neg
        (List.map (fun kv => if kv.1 == k then (k, v) else kv) tl)
        (show ¬ (fun kv : String × String => kv.1 == k') (k, v) = true
          from by simp [h]),
        List.find?_cons_of_neg tl
        (show ¬ (fun kv : String × String => kv.1 == k') a = true
          from by simp [ha', h])]
      exact ih
    · simp only [List.map_cons]
      rw [if_neg ha]
      by_cases hk' : (a.1 == k') = true
      · rw [List.find?_cons_of_pos
          (List.map (fun kv => if kv.1 == k then (k, v) else kv) tl)
          (show (fun kv : String × String => kv.1 == k') a = true
            from hk'),
          List.find?_cons_of_pos tl
          (show (fun kv : String × String => kv.1 == k') a = true
            from hk')]
      · rw [List.find?_cons_of_neg
          (List.map (fun kv => if kv.1 == k then (k, v) else kv) tl)
          (show ¬ (fun kv : String × String => kv.1 == k') a = true
            from by simpa using hk'),
          List.find?_cons_of_neg tl
          (show ¬ (fun kv : String × String => kv.1 == k') a = true
            from by simpa using hk')]
        exact ih

theorem dictGetStr_insert_self (l : List (String × String)) (k v : String) :
    dictGetStr (dictInsertStr l k v) k = some v := by
  unfold dictInsertStr
  split
  · next hany =>
    rw [List.any_eq_true] at hany
    exact find_map_subst k v l hany
  · next hany =>
    unfold dictGetStr
    rw [List.find?_append]
    have hnone : l.find? (fun kv => kv.1 == k) = none := by
      rw [List.find?_eq_none]
      intro kv hkv hk0
      exact hany (List.any_eq_true.mpr ⟨kv, hkv, hk0⟩)
    rw [hnone]
    simp [List.find?_cons]

theorem dictGetStr_insert_ne (l : List (String × String)) (k v k' : String)
    (h : k ≠ k') :
    dictGetStr (dictInsertStr l k v) k' = dictGetStr l k' := by
  unfold dictInsertStr dictGetStr
  split
  · rw [find_map_subst_ne k v k' h l]
  · rw [List.find?_append]
    have h1 : ((k : String) == k') = false := by
      simp [h]
    cases hfind : l.find? (fun kv => kv.1 == k') with
    | some kv => rfl
    | none => simp [List.find?_cons, h1]

theorem update_routing_graph_eq_fold (rt : Router) (kps : List String) :
    (rt.update_routing_graph kps).routing_graph =
      kps.foldl (Router.routeStep rt) [] := by
  unfold Router.update_routing_graph
  dsimp only
  congr 1
  funext acc t
  unfold Router.routeStep Router.route_entry
  by_cases h1 : t = rt.peer_id
  · simp [h1]
  · rw [if_neg h1, if_neg h1]
    cases Router.BFS_path_finding rt.peer_graph rt.peer_id t with
    | none => rfl
    | some path =>
      dsimp only
      by_cases h2 : path.isEmpty
      · simp [h2]
      · rw [if_neg (by simpa using h2), if_neg (by simpa using h2)]
        cases Router.get_next_hop rt.peer_id path with
        | none => rfl
        | some nh =>
          dsimp only
          by_cases h3 : nh = ""
          · simp [h3]
          · rw [if_neg h3, if_neg h3]

theorem fold_route_lookup_not_mem (rt : Router) (l : List String)
    (t : String) (ht : t ∉ l) :
    ∀ acc, dictGetStr (l.foldl (Router.routeStep rt) acc) t =
      dictGetStr acc t := by
  induction l with
  | nil => intro acc; rfl
  | cons a tl ih =>
    intro acc
    rw [List.foldl_cons, ih (by intro hm; exact ht (List.mem_cons_of_mem _ hm))]
    unfold Router.routeStep
    cases rt.route_entry a with
    | none => rfl
    | some h =>
      dsimp only
      exact dictGetStr_insert_ne acc a h t
        (by intro heq; exact ht (heq ▸ List.mem_cons_self _ _))

theorem fold_route_lookup_mem (rt : Router) (l : List String) (t : String)
    (ht : t ∈ l) (hnd : l.Nodup) :
    ∀ acc, dictGetStr acc t = none →
      dictGetStr (l.foldl (Router.routeStep rt) acc) t =
        rt.route_entry t := by
  induction l with
  | nil => simp at ht
  | cons a tl ih =>
    intro acc hacc
    rw [List.foldl_cons]
    rcases List.mem_cons.mp ht with rfl | hmem
    · have hnt : t ∉ tl := (List.nodup_cons.mp hnd).1
      rw [fold_route_lookup_not_mem rt tl t hnt]
      unfold Router.routeStep
      cases hre : rt.route_entry t with
      | none => exact hacc
      | some h => exact dictGetStr_insert_self _ t h
    · have hat : a ≠ t := by
        intro heq
        exact (List.nodup_cons.mp hnd).1 (heq ▸ hmem)
      apply ih hmem (List.nodup_cons.mp hnd).2
      unfold Router.routeStep
      cases rt.route_entry a with
      | none => exact hacc
      | some h =>
        dsimp only
        rw [dictGetStr_insert_ne acc a h t hat]
        exact hacc

theorem update_routing_graph_lookup (rt : Router) (kps : List String)
    (hnd : kps.Nodup) (t : String) (ht : t ∈ kps) :
    dictGetStr (rt.update_routing_graph kps).routing_graph t =
      rt.route_entry t := by
  rw [update_routing_graph_eq_fold]
  exact fold_route_lookup_mem rt kps t ht hnd [] rfl

/-- C2: after `update_routing_graph(known_peers)`, every target other than
self that the peer graph connects to self is routed to the first hop after
self on the shortest (fewest-hop) path — ties between equal-length paths
broken by iterating neighbors in sorted PeerId order, i.e. the
lexicographically least shortest path — and unreachable targets have no
entry.  Hypotheses: adjacency sets are iterated in sorted order, the graph
is symmetric (undirected), peer ids on edges are non-empty, and
`known_peers` are dict keys (no duplicates). -/
theorem update_routing_graph_bfs (rt : Router) (known_peers : List String)
    (hsort : ∀ kv ∈ rt.peer_graph, kv.2.Pairwise (· < ·))
    (hsym : ∀ kv ∈ rt.peer_graph, ∀ v ∈ kv.2,
      kv.1 ∈ neighborsOf rt.peer_graph v)
    (hids : ∀ kv ∈ rt.peer_graph, ∀ v ∈ kv.2, v ≠ "")
    (hnd : known_peers.Nodup) (target : String)
    (htk : target ∈ known_peers) (hnt : target ≠ rt.peer_id) :
    ((∃ q, IsPathND rt.peer_graph rt.peer_id target q) →
      ∃ p, IsPathND rt.peer_graph rt.peer_id target p ∧
        (∀ q, IsPathND rt.peer_graph rt.peer_id target q →
          p.length ≤ q.length ∧ (q.length = p.length → lexLe p q)) ∧
        dictGetStr (rt.update_routing_graph known_peers).routing_graph
          target = p[1]?) ∧
    ((¬ ∃ q, IsPathND rt.peer_graph rt.peer_id target q) →
      dictGetStr (rt.update_routing_graph known_peers).routing_graph
        target = none) := by
  rw [update_routing_graph_lookup rt known_peers hnd target htk]
  constructor
  · intro hex
    have hc := BFS_path_finding_complete hsort hsym hnt hex
    obtain ⟨p, hp⟩ := Option.isSome_iff_exists.mp hc
    have hs := BFS_path_finding_sound hsort hnt p hp
    refine ⟨p, hs.1, hs.2, ?_⟩
    unfold Router.route_entry
    rw [if_neg hnt, hp]
    dsimp only
    have hlen : 1 < p.length := hs.1.one_lt_length (Ne.symm hnt)
    have hempty : p.isEmpty = false := by
      rcases p with - | ⟨a, p'⟩
      · simp at hlen
      · rfl
    rw [if_neg (by simp [hempty])]
    rw [get_next_hop_of_path hs.1.1 hlen]
    have hx : p[1]? = some (p.get ⟨1, hlen⟩) := by
      rw [List.get_eq_getElem]
      exact List.getElem?_eq_getElem hlen
    rw [hx]
    dsimp only
    have hxnbr : p.get ⟨1, hlen⟩ ∈ neighborsOf rt.peer_graph rt.peer_id :=
      hs.1.edge hs.1.getElem?_zero hx
    obtain ⟨kv, hkv, -, hxkv⟩ := neighborsOf_spec hxnbr
    rw [if_neg (hids kv hkv _ hxkv)]
  · intro hnex
    unfold Router.route_entry
    rw [if_neg hnt]
    cases hbfs : Router.BFS_path_finding rt.peer_graph rt.peer_id target
      with
    | none => rfl
    | some p =>
      exact absurd ⟨p, (BFS_path_finding_sound hsort hnt p hbfs).1⟩ hnex

/-- C2 witness: on the square graph a-b, b-c, c-d, d-a with sorted
adjacency, the routing entry for `c` is the first hop `b` of the
lexicographically least shortest path `a, b, c`. -/
theorem update_routing_graph_bfs_witness :
    ∃ p, IsPathND
        [("a", ["b", "d"]), ("b", ["a", "c"]), ("c", ["b", "d"]),
         ("d", ["a", "c"])] "a" "c" p ∧
      (∀ q, IsPathND
          [("a", ["b", "d"]), ("b", ["a", "c"]), ("c", ["b", "d"]),
           ("d", ["a", "c"])] "a" "c" q →
        p.length ≤ q.length ∧ (q.length = p.length → lexLe p q)) ∧
      dictGetStr (Router.update_routing_graph
        { routing_graph := [],
          peer_graph := [("a", ["b", "d"]), ("b", ["a", "c"]),
            ("c", ["b", "d"]), ("d", ["a", "c"])],
          peer_id := "a" } ["b", "c", "d"]).routing_graph "c" = p[1]? :=
  (update_routing_graph_bfs
    { routing_graph := [],
      peer_graph := [("a", ["b", "d"]), ("b", ["a", "c"]),
        ("c", ["b", "d"]), ("d", ["a", "c"])],
      peer_id := "a" } ["b", "c", "d"]
    (by
      intro kv hkv
      fin_cases hkv <;> refine List.pairwise_pair.mpr ?_ <;>
        (simp; exact List.Lex.rel (by decide)))
    (by decide) (by decide) (by decide) "c" (by decide)
    (by decide)).1
    ⟨["a", "b", "c"], rfl, rfl,
      .cons (by decide) (.cons (by decide) .nil), by decide⟩

theorem pyDictHas_set_ne {α : Type} (l : List (String × α)) (k k' : String)
    (v : α) (h : k ≠ k') :
    pyDictHas (pyDictSet l k v) k' = pyDictHas l k' := by
  unfold pyDictSet pyDictHas
  split
  · rw [List.any_map]
    congr 1
    funext kv
    simp only [Function.comp]
    by_cases hk : (kv.1 == k) = true
    · have hkk : kv.1 = k := by simpa using hk
      simp [hk, hkk, h]
    · simp [hk]
  · simp [List.any_append, h]

theorem route_message_fields (p : Peer) (m : Message) (now : Rat) :
    (p.route_message m now).1.known_peers = p.known_peers ∧
    (p.route_message m now).1.seen_messages = p.seen_messages := by
  unfold Peer.route_message
  rcases m.target_user_id with - | t <;> dsimp only
  · exact ⟨rfl, rfl⟩
  · rcases dictGetStr p.router.routing_graph t with - | nh <;> dsimp only
    · exact ⟨rfl, rfl⟩
    · split <;> exact ⟨rfl, rfl⟩

theorem send_message_fields (p : Peer) (m : Message) (now : Rat) :
    (p.send_message m now).1.known_peers = p.known_peers ∧
    (p.send_message m now).1.seen_messages = p.seen_messages := by
  unfold Peer.send_message
  rcases m.target_user_id with - | t <;> dsimp only
  · exact route_message_fields p m now
  · split
    · exact ⟨rfl, rfl⟩
    · exact route_message_fields p m now

theorem sendFold_fields (ms : List Message) (now : Rat) :
    ∀ st : Peer × List (String × Message),
      ((ms.foldl (fun acc m =>
          let step := acc.1.send_message m now
          (step.1, acc.2 ++ step.2.1)) st).1.known_peers =
        st.1.known_peers) ∧
      ((ms.foldl (fun acc m =>
          let step := acc.1.send_message m now
          (step.1, acc.2 ++ step.2.1)) st).1.seen_messages =
        st.1.seen_messages) := by
  induction ms with
  | nil => intro st; exact ⟨rfl, rfl⟩
  | cons m tl ih =>
    intro st
    simp only [List.foldl_cons]
    refine ⟨?_, ?_⟩
    · rw [(ih _).1]
      exact (send_message_fields st.1 m now).1
    · rw [(ih _).2]
      exact (send_message_fields st.1 m now).2

theorem deliver_queued_messages_fields (p : Peer) (t : String) (now : Rat)
    (fresh : String) :
    (p.deliver_queued_messages t now fresh).1.known_peers = p.known_peers ∧
    (p.deliver_queued_messages t now fresh).1.seen_messages =
      p.seen_messages := by
  unfold Peer.deliver_queued_messages
  exact sendFold_fields _ now _

theorem handle_handshake_known_peers (p : Peer) (m : Message)
    (conn : PeerConnection) (now : Rat) (fresh : String) :
    (p.handle_handshake m conn now fresh).1.known_peers =
      pyDictSet p.known_peers m.peer_id
        (Json.obj [("host", (Json.dictGet m.data "host").getD Json.null),
                   ("port", (Json.dictGet m.data "port").getD Json.null)]) := by
  unfold Peer.handle_handshake
  exact (deliver_queued_messages_fields _ _ _ _).1

theorem peer_list_fold_has_self (self_id : String)
    (l : List (String × Json)) :
    ∀ acc : List (String × Json) × Nat,
      pyDictHas ((l.foldl (fun acc kv =>
        if kv.1 != self_id && ! pyDictHas acc.1 kv.1 then
          (acc.1 ++ [kv], acc.2 + 1)
        else acc) acc).1) self_id = pyDictHas acc.1 self_id := by
  induction l with
  | nil => intro acc; rfl
  | cons kv tl ih =>
    intro acc
    simp only [List.foldl_cons]
    rw [ih]
    by_cases hcond : (kv.1 != self_id && ! pyDictHas acc.1 kv.1) = true
    · rw [if_pos hcond]
      have hne : kv.1 ≠ self_id := by
        rcases Bool.and_eq_true .. |>.mp hcond with ⟨h1, -⟩
        simpa using h1
      simp [pyDictHas, hne]
    · rw [if_neg hcond]

theorem handle_peer_list_known_peers (p : Peer) (m : Message) (now : Rat)
    (fresh : String) :
    pyDictHas (p.handle_peer_list m now fresh).1.known_peers p.peer_id =
      pyDictHas p.known_peers p.peer_id := by
  unfold Peer.handle_peer_list
  dsimp only
  split <;> exact peer_list_fold_has_self p.peer_id m.data (p.known_peers, 0)

theorem handle_handshake_seen (p : Peer) (m : Message)
    (conn : PeerConnection) (now : Rat) (fresh : String) :
    (p.handle_handshake m conn now fresh).1.seen_messages =
      p.seen_messages := by
  unfold Peer.handle_handshake
  exact (deliver_queued_messages_fields _ _ _ _).2

theorem handle_user_message_seen (p : Peer) (m : Message) (now : Rat) :
    (p.handle_user_message m now).1.seen_messages = p.seen_messages := by
  unfold Peer.handle_user_message
  split
  · rfl
  · exact (route_message_fields _ _ _).2

theorem handle_peer_list_seen (p : Peer) (m : Message) (now : Rat)
    (fresh : String) :
    (p.handle_peer_list m now fresh).1.seen_messages = p.seen_messages := by
  unfold Peer.handle_peer_list
  dsimp only
  split <;> rfl

theorem handle_network_seen (p : Peer) (m : Message) (now : Rat)
    (fresh : String) :
    (p.handle_network_structure_message m now fresh).1.seen_messages =
      p.seen_messages := by
  unfold Peer.handle_network_structure_message
  dsimp only
  split <;> rfl

theorem handle_message_seen (p : Peer) (m : Message)
    (conn : PeerConnection) (now : Rat) (fresh : String) :
    (p.handle_message m conn now fresh).1.seen_messages =
      if m.message_id ∈ p.seen_messages then p.seen_messages
      else p.seen_messages ++ [m.message_id] := by
  unfold Peer.handle_message
  by_cases h : m.message_id ∈ p.seen_messages
  · simp [h]
  · rw [if_neg h, if_neg h]
    dsimp only
    split_ifs
    · rfl
    · exact handle_handshake_seen _ _ _ _ _
    · exact handle_user_message_seen _ _ _
    · exact handle_peer_list_seen _ _ _ _
    · exact handle_network_seen _ _ _ _
    · rfl

theorem handle_message_of_seen (p : Peer) (m : Message)
    (conn : PeerConnection) (now : Rat) (fresh : String)
    (h : m.message_id ∈ p.seen_messages) :
    p.handle_message m conn now fresh = (p, [], false) := by
  unfold Peer.handle_message
  rw [if_pos h]

theorem handle_message_disp_unseen (p : Peer) (m : Message)
    (conn : PeerConnection) (now : Rat) (fresh : String)
    (hd : (p.handle_message m conn now fresh).2.2 = true) :
    m.message_id ∉ p.seen_messages := by
  intro h
  rw [handle_message_of_seen p m conn now fresh h] at hd
  exact Bool.noConfusion hd

theorem handle_message_id_recorded (p : Peer) (m : Message)
    (conn : PeerConnection) (now : Rat) (fresh : String) :
    m.message_id ∈ (p.handle_message m conn now fresh).1.seen_messages := by
  rw [handle_message_seen]
  split
  · assumption
  · simp

theorem handle_message_seen_mono (p : Peer) (m : Message)
    (conn : PeerConnection) (now : Rat) (fresh : String) (x : String)
    (hx : x ∈ p.seen_messages) :
    x ∈ (p.handle_message m conn now fresh).1.seen_messages := by
  rw [handle_message_seen]
  split
  · exact hx
  · exact List.mem_append_left _ hx

theorem run_messages_acc (ms : List (Message × PeerConnection)) (now : Rat)
    (fresh : String) :
    ∀ (p : Peer) (acc : List Message),
      ms.foldl (fun acc mc =>
        let step := acc.1.handle_message mc.1 mc.2 now fresh
        (step.1, if step.2.2 then acc.2 ++ [mc.1] else acc.2)) (p, acc) =
      ((p.run_messages ms now fresh).1,
        acc ++ (p.run_messages ms now fresh).2) := by
  induction ms with
  | nil =>
    intro p acc
    simp [Peer.run_messages]
  | cons mc tl ih =>
    intro p acc
    simp only [Peer.run_messages, List.foldl_cons]
    cases hd : (p.handle_message mc.1 mc.2 now fresh).2.2 <;>
      simp only [hd, if_true, if_false, Bool.false_eq_true,
        List.nil_append] <;>
      rw [ih, ih] <;> simp

theorem run_messages_cons (p : Peer) (mc : Message × PeerConnection)
    (tl : List (Message × PeerConnection)) (now : Rat) (fresh : String) :
    p.run_messages (mc :: tl) now fresh =
      (((p.handle_message mc.1 mc.2 now fresh).1.run_messages tl now
          fresh).1,
       (if (p.handle_message mc.1 mc.2 now fresh).2.2 then [mc.1] else []) ++
         ((p.handle_message mc.1 mc.2 now fresh).1.run_messages tl now
           fresh).2) := by
  show List.foldl _ _ _ = _
  rw [List.foldl_cons]
  dsimp only
  rw [run_messages_acc]
  cases hd : (p.handle_message mc.1 mc.2 now fresh).2.2 <;> simp [hd]

theorem run_messages_seen_mono (ms : List (Message × PeerConnection))
    (now : Rat) (fresh : String) :
    ∀ (p : Peer) (x : String), x ∈ p.seen_messages →
      x ∈ (p.run_messages ms now fresh).1.seen_messages := by
  induction ms with
  | nil => intro p x hx; exact hx
  | cons mc tl ih =>
    intro p x hx
    rw [run_messages_cons]
    exact ih _ x (handle_message_seen_mono p mc.1 mc.2 now fresh x hx)

theorem run_messages_no_dispatch_of_seen
    (ms : List (Message × PeerConnection)) (now : Rat) (fresh : String)
    (id : String) :
    ∀ p : Peer, id ∈ p.seen_messages →
      ∀ m ∈ (p.run_messages ms now fresh).2, m.message_id ≠ id := by
  induction ms with
  | nil =>
    intro p hid m hm
    simp [Peer.run_messages] at hm
  | cons mc tl ih =>
    intro p hid m hm
    rw [run_messages_cons] at hm
    rcases List.mem_append.mp hm with hm | hm
    · cases hd : (p.handle_message mc.1 mc.2 now fresh).2.2 <;>
        rw [hd] at hm
      · simp at hm
      · simp only [if_true, List.mem_singleton] at hm
        subst hm
        intro heq
        apply handle_message_disp_unseen p mc.1 mc.2 now fresh hd
        rw [heq]
        exact hid
    · exact ih _ (handle_message_seen_mono p mc.1 mc.2 now fresh id hid) m hm

theorem run_messages_filter_le_one (now : Rat) (fresh : String)
    (id : String) :
    ∀ (ms : List (Message × PeerConnection)) (p : Peer),
      ((p.run_messages ms now fresh).2.filter
        (fun m' => m'.message_id == id)).length ≤ 1 := by
  intro ms
  induction ms with
  | nil =>
    intro p
    simp [Peer.run_messages]
  | cons mc tl ih =>
    intro p
    rw [run_messages_cons, List.filter_append, List.length_append]
    cases hd : (p.handle_message mc.1 mc.2 now fresh).2.2
    · simpa using ih _
    · by_cases hid : mc.1.message_id = id
      · have h1 : id ∈ (p.handle_message mc.1 mc.2 now fresh).1.seen_messages :=
          hid ▸ handle_message_id_recorded p mc.1 mc.2 now fresh
        have h2 : ((((p.handle_message mc.1 mc.2 now fresh).1.run_messages
            tl now fresh).2).filter (fun m' => m'.message_id == id)) = [] := by
          rw [List.filter_eq_nil_iff]
          intro m hm
          simpa using
            run_messages_no_dispatch_of_seen tl now fresh id _ h1 m hm
        rw [h2]
        simp [hid]
      · have : (List.filter (fun m' => m'.message_id == id)
            (if true = true then [mc.1] else [])) = [] := by
          simp [hid]
        rw [this]
        simpa using ih _

theorem handle_message_disp_eq (p : Peer) (m : Message)
    (conn : PeerConnection) (now : Rat) (fresh : String)
    (h : m.message_id ∉ p.seen_messages) :
    (p.handle_message m conn now fresh).2.2 =
      handledTypes.contains m.message_type := by
  unfold Peer.handle_message
  rw [if_neg h]
  dsimp only
  split_ifs with h1 h2 h3 h4 h5 <;>
    simp_all [handledTypes]

/-- C3: at most one message per `message_id` is dispatched to a handler.
Over any delivery sequence the dispatched messages carry pairwise distinct
ids; a first arrival (id unseen) is processed — its id enters the seen set,
and a handler runs exactly when the type is one of the five dispatched
types — and any arrival whose id is already seen is dropped: state
untouched, nothing queued, no handler invoked. -/
theorem dispatch_at_most_once_per_id (p : Peer) (now : Rat)
    (fresh : String) (ms pre : List (Message × PeerConnection))
    (m : Message) (c : PeerConnection) :
    (∀ id, ((p.run_messages ms now fresh).2.filter
      (fun m' => m'.message_id == id)).length ≤ 1) ∧
    (m.message_id ∉ (p.run_messages pre now fresh).1.seen_messages →
      m.message_id ∈ ((p.run_messages pre now fresh).1.handle_message m c
        now fresh).1.seen_messages ∧
      ((p.run_messages pre now fresh).1.handle_message m c now
        fresh).2.2 = handledTypes.contains m.message_type) ∧
    (m.message_id ∈ (p.run_messages pre now fresh).1.seen_messages →
      (p.run_messages pre now fresh).1.handle_message m c now fresh =
        ((p.run_messages pre now fresh).1, [], false)) := by
  refine ⟨fun id => run_messages_filter_le_one now fresh id ms p,
    fun hnew => ⟨handle_message_id_recorded _ m c now fresh,
      handle_message_disp_eq _ m c now fresh hnew⟩,
    fun hseen => handle_message_of_seen _ m c now fresh hseen⟩

/-- C3 witness: a node that has processed a `MESSAGE` once drops a second
delivery with the same `message_id` without state change, queueing or
dispatch. -/
theorem dispatch_at_most_once_per_id_witness :
    (({ host := "h", port := 1, peer_id := "a", connections := [],
        known_peers := [], seen_messages := [],
        router := { routing_graph := [], peer_graph := [], peer_id := "a" },
        message_store := MessageStore.initialize_database,
        pest_recent_alerts := [] : Peer }.run_messages
          [({ peer_id := "b", target_user_id := some "a",
              message_type := "MESSAGE", data := [], time_stamp := 1,
              message_id := "id1", hop_count := 0,
              path := [Json.str "b"] },
            { peer_id := none, is_handshake_complete := false })]
          1 "f").1.handle_message
        { peer_id := "b", target_user_id := some "a",
          message_type := "MESSAGE", data := [], time_stamp := 1,
          message_id := "id1", hop_count := 0, path := [Json.str "b"] }
        { peer_id := none, is_handshake_complete := false } 1 "f") =
      (({ host := "h", port := 1, peer_id := "a", connections := [],
          known_peers := [], seen_messages := [],
          router := { routing_graph := [], peer_graph := [],
                      peer_id := "a" },
          message_store := MessageStore.initialize_database,
          pest_recent_alerts := [] : Peer }.run_messages
            [({ peer_id := "b", target_user_id := some "a",
                message_type := "MESSAGE", data := [], time_stamp := 1,
                message_id := "id1", hop_count := 0,
                path := [Json.str "b"] },
              { peer_id := none, is_handshake_complete := false })]
            1 "f").1, [], false) :=
  (dispatch_at_most_once_per_id _ 1 "f" [] _
    { peer_id := "b", target_user_id := some "a",
      message_type := "MESSAGE", data := [], time_stamp := 1,
      message_id := "id1", hop_count := 0, path := [Json.str "b"] }
    { peer_id := none, is_handshake_complete := false }).2.2 (by decide)

/-- C9 (counterexample): a `HANDSHAKE` whose `peer_id` field equals the
local node's own id does insert self into `known_peers`:
`handle_handshake` records the sender unconditionally, with no self
check. -/
theorem handshake_from_self_inserts_self :
    pyDictHas (Peer.handle_handshake
      { host := "h", port := 1, peer_id := "a", connections := [],
        known_peers := [], seen_messages := [],
        router := { routing_graph := [], peer_graph := [], peer_id := "a" },
        message_store := MessageStore.initialize_database,
        pest_recent_alerts := [] }
      { peer_id := "a", target_user_id := none,
        message_type := "HANDSHAKE",
        data := [("host", Json.str "h"), ("port", Json.int 1)],
        time_stamp := 1, message_id := "mid", hop_count := 0,
        path := [Json.str "a"] }
      { peer_id := none, is_handshake_complete := false }
      1 "f").1.known_peers "a" = true := by
  rw [handle_handshake_known_peers]
  rfl

/-- C9 (amended): `handle_peer_list` never inserts the local peer id into
`known_peers`; `handle_handshake` does not either, provided the handshake's
`peer_id` differs from the local one — a handshake carrying the local id
itself is recorded like any other sender. -/
theorem self_not_inserted (p : Peer) (m : Message) (conn : PeerConnection)
    (now : Rat) (fresh : String)
    (hself : pyDictHas p.known_peers p.peer_id = false) :
    (m.peer_id ≠ p.peer_id →
      pyDictHas (p.handle_handshake m conn now fresh).1.known_peers
        p.peer_id = false) ∧
    pyDictHas (p.handle_peer_list m now fresh).1.known_peers
      p.peer_id = false := by
  constructor
  · intro hne
    rw [handle_handshake_known_peers, pyDictHas_set_ne _ _ _ _ hne]
    exact hself
  · rw [handle_peer_list_known_peers]
    exact hself

/-- C9 witness: the preservation theorem applied at a concrete node
receiving a handshake from `"b"` and a peer list advertising itself. -/
theorem self_not_inserted_witness :
    pyDictHas (Peer.handle_handshake
      { host := "h", port := 1, peer_id := "a", connections := [],
        known_peers := [], seen_messages := [],
        router := { routing_graph := [], peer_graph := [], peer_id := "a" },
        message_store := MessageStore.initialize_database,
        pest_recent_alerts := [] }
      { peer_id := "b", target_user_id := none,
        message_type := "HANDSHAKE",
        data := [("host", Json.str "g"), ("port", Json.int 2)],
        time_stamp := 1, message_id := "mid", hop_count := 0,
        path := [Json.str "b"] }
      { peer_id := none, is_handshake_complete := false }
      1 "f").1.known_peers "a" = false := by
  refine (self_not_inserted _ _ _ 1 "f" ?_).1 ?_ <;> decide

/-- C10: when a received `PEST_ALERT` is forwarded (hop count below the
cap of 3), copies go only to connected peers absent from the alert's
`path`, and every copy keeps the original `message_id`, increments
`hop_count` by one, and extends `path` with the local peer id. -/
theorem forwarded_alert_shape (self_id : String) (conns : List String)
    (alert : Message) (now : Rat) (fresh : String)
    (recent : List (Message × Rat × String))
    (hhop : alert.hop_count < 3) :
    ∀ pm ∈ (PestAlertHandler.handle_received_alert recent self_id conns
        alert now fresh).2,
      pm.1 ∈ conns ∧ pathContainsStr alert.path pm.1 = false ∧
      pm.2.message_id = alert.message_id ∧
      pm.2.hop_count = alert.hop_count + 1 ∧
      pm.2.path = alert.path ++ [Json.str self_id] := by
  intro pm hpm
  simp only [PestAlertHandler.handle_received_alert, if_pos hhop,
    PestAlertHandler.forward_alert, List.mem_filterMap] at hpm
  obtain ⟨pid, hmem, hif⟩ := hpm
  by_cases hc : pathContainsStr alert.path pid = true
  · rw [if_pos hc] at hif
    exact Option.noConfusion hif
  · rw [if_neg hc] at hif
    obtain rfl := Option.some.inj hif
    exact ⟨hmem, by simpa using hc, rfl, rfl, rfl⟩

/-- C10 witness: at a concrete alert (hop count 1, path o-q) a node `s`
connected to `p` and `q` emits the forwarded copy to `p` — the neighbor
`q` already on the path — and the copy keeps `message_id`, increments the
hop count and appends `s` to the path. -/
theorem forwarded_alert_shape_witness :
    ("p", { Message.init "s" (some "p") "PEST_ALERT" [] 2 2 "f" with
        message_id := "id1", hop_count := (1 : Int) + 1,
        path := [Json.str "o", Json.str "q"] ++ [Json.str "s"] }) ∈
      (PestAlertHandler.handle_received_alert [] "s" ["p", "q"]
        { peer_id := "o", target_user_id := none,
          message_type := "PEST_ALERT", data := [], time_stamp := 1,
          message_id := "id1", hop_count := 1,
          path := [Json.str "o", Json.str "q"] } 2 "f").2 ∧
    (("p" : String) ∈ ["p", "q"] ∧
     pathContainsStr [Json.str "o", Json.str "q"] "p" = false ∧
     ({ Message.init "s" (some "p") "PEST_ALERT" [] 2 2 "f" with
        message_id := "id1", hop_count := (1 : Int) + 1,
        path := [Json.str "o", Json.str "q"] ++
          [Json.str "s"] } : Message).message_id = "id1" ∧
     ({ Message.init "s" (some "p") "PEST_ALERT" [] 2 2 "f" with
        message_id := "id1", hop_count := (1 : Int) + 1,
        path := [Json.str "o", Json.str "q"] ++
          [Json.str "s"] } : Message).hop_count = 1 + 1 ∧
     ({ Message.init "s" (some "p") "PEST_ALERT" [] 2 2 "f" with
        message_id := "id1", hop_count := (1 : Int) + 1,
        path := [Json.str "o", Json.str "q"] ++
          [Json.str "s"] } : Message).path =
       [Json.str "o", Json.str "q"] ++ [Json.str "s"]) := by
  have hpm : ("p", { Message.init "s" (some "p") "PEST_ALERT" [] 2 2 "f" with
        message_id := "id1", hop_count := (1 : Int) + 1,
        path := [Json.str "o", Json.str "q"] ++ [Json.str "s"] }) ∈
      (PestAlertHandler.handle_received_alert [] "s" ["p", "q"]
        { peer_id := "o", target_user_id := none,
          message_type := "PEST_ALERT", data := [], time_stamp := 1,
          message_id := "id1", hop_count := 1,
          path := [Json.str "o", Json.str "q"] } 2 "f").2 :=
    List.Mem.head _
  exact ⟨hpm,
    forwarded_alert_shape "s" ["p", "q"] _ 2 "f" [] (by norm_num) _ hpm⟩

/-- C8: after `remove_peer x`, `x` is not a key of the peer graph, no
adjacency set contains `x`, and no routing row has `x` as destination or
next hop. -/
theorem remove_peer_consistent (rt : Router) (x : String) :
    (∀ kv ∈ (rt.remove_peer x).peer_graph, kv.1 ≠ x ∧ x ∉ kv.2) ∧
    (∀ kv ∈ (rt.remove_peer x).routing_graph, kv.1 ≠ x ∧ kv.2 ≠ x) := by
  constructor
  · intro kv hkv
    simp only [Router.remove_peer, List.mem_map, List.mem_filter] at hkv
    obtain ⟨kv', ⟨-, hne⟩, hmk⟩ := hkv
    constructor
    · rw [← hmk]
      simpa using hne
    · rw [← hmk]
      simp

  · intro kv hkv
    simp only [Router.remove_peer, List.mem_filter, Bool.and_eq_true,
      bne_iff_ne] at hkv
    exact hkv.2

/-- C8 witness: the consistency theorem applied to a concrete router after
removing peer `"x"`. -/
theorem remove_peer_consistent_witness :
    ("a", ["b"]).1 ≠ "x" ∧ "x" ∉ ("a", ["b"]).2 :=
  (remove_peer_consistent
    { routing_graph := [("x", "b"), ("c", "x"), ("b", "b")],
      peer_graph := [("a", ["x", "b"]), ("x", ["a"]), ("b", ["a"])],
      peer_id := "s" } "x").1 ("a", ["b"]) (by decide)

/-- C5: after `get_pending_messages target` returns, every non-expired
stored message addressed to `target` has been deleted from the offline
store — unconditionally, inside the call itself, hence before the caller
can attempt any send of the returned messages. -/
theorem get_pending_messages_deletes_returned (s : MessageStore)
    (target : String) (now nowm : Rat) (fresh : String) (o : OfflineRow)
    (ho : o ∈ (s.get_pending_messages target now now nowm now fresh).2.offline_messages)
    (htgt : o.target_user_id = some target) :
    s.schedule_messages.all (fun r =>
      !(r.message_id == o.message_id) ||
        decide (r.expiry_time ≤ now)) = true := by
  rw [List.all_eq_true]
  intro r hr
  simp only [MessageStore.get_pending_messages,
    MessageStore.delet_sent_messages, MessageStore.delete_expired_messages,
    List.mem_filter] at ho
  obtain ⟨⟨-, hkeep⟩, hsent⟩ := ho
  by_cases hmid : r.message_id = o.message_id
  · rw [Bool.not_eq_true', Bool.and_eq_false_iff] at hsent
    rcases hsent with hsent | hsent
    · simp [htgt] at hsent
    · rw [List.any_eq_false] at hsent
      have h2 := hsent r hr
      rw [hmid] at h2
      simp only [beq_self_eq_true, Bool.true_and, decide_eq_true_eq] at h2
      rw [not_lt] at h2
      simp [hmid, h2]
  · simp [hmid]

/-- C5 witness: in a store whose only offline row targets `"b"` under id
`"x"` while the schedule holds an unexpired entry for a different id, the
row survives `get_pending_messages "b"` and the theorem certifies that no
unexpired schedule entry matches it. -/
theorem get_pending_messages_deletes_returned_witness :
    ({ rowid := 1, peer_id := "a", target_user_id := some "b",
       message_type := "M", data := [], time_stamp := 1,
       message_id := "x", hop_count := 0,
       path := [Json.str "a"] } : OfflineRow) ∈
      (({ next_id := 2,
          offline_messages :=
            [{ rowid := 1, peer_id := "a", target_user_id := some "b",
               message_type := "M", data := [], time_stamp := 1,
               message_id := "x", hop_count := 0,
               path := [Json.str "a"] }],
          schedule_messages :=
            [{ message_id := "y", last_tried := none, retry_count := 0,
               expiry_time := 99 }] } : MessageStore).get_pending_messages
        "b" 1 1 1 1 "f").2.offline_messages ∧
    ([{ message_id := "y", last_tried := none, retry_count := 0,
        expiry_time := 99 }] : List ScheduleRow).all (fun r =>
      !(r.message_id == "x") || decide (r.expiry_time ≤ (1 : Rat))) =
      true := by
  have ho : ({ rowid := 1, peer_id := "a", target_user_id := some "b",
               message_type := "M", data := [], time_stamp := 1,
               message_id := "x", hop_count := 0,
               path := [Json.str "a"] } : OfflineRow) ∈
      (({ next_id := 2,
          offline_messages :=
            [{ rowid := 1, peer_id := "a", target_user_id := some "b",
               message_type := "M", data := [], time_stamp := 1,
               message_id := "x", hop_count := 0,
               path := [Json.str "a"] }],
          schedule_messages :=
            [{ message_id := "y", last_tried := none, retry_count := 0,
               expiry_time := 99 }] } : MessageStore).get_pending_messages
        "b" 1 1 1 1 "f").2.offline_messages := List.Mem.head _
  exact ⟨ho, get_pending_messages_deletes_returned _ "b" 1 1 "f" _ ho rfl⟩

/-- C6 (counterexample): storing the same message twice is not a success:
the second `store_offline_message` hits the `schedule_messages` primary key
and raises, where the claim requires it to succeed. -/
theorem store_offline_message_twice_errors :
    ((MessageStore.store_offline_message MessageStore.initialize_database
        { peer_id := "a", target_user_id := some "b", message_type := "M",
          data := [], time_stamp := 1, message_id := "x", hop_count := 0,
          path := [Json.str "a"] } 0).1.store_offline_message
        { peer_id := "a", target_user_id := some "b", message_type := "M",
          data := [], time_stamp := 1, message_id := "x", hop_count := 0,
          path := [Json.str "a"] } 5).2 ≠ none := by
  intro h
  exact Option.noConfusion h

/-- C6 (amended): re-storing a message whose `message_id` the schedule
table already holds raises an integrity error (the id is the primary key of
`schedule_messages` only; `offline_messages` keys on an autoincrement id),
and — the exception firing before `commit` — leaves both tables exactly as
they were. -/
theorem store_offline_message_duplicate_id (s : MessageStore) (m : Message)
    (now : Rat)
    (h : s.schedule_messages.any (fun r => r.message_id == m.message_id) = true) :
    (s.store_offline_message m now).1 = s ∧
    (s.store_offline_message m now).2 ≠ none := by
  unfold MessageStore.store_offline_message
  by_cases hn : m.target_user_id = none <;> simp [hn, h]

/-- C6 witness: the duplicate-id theorem applied after one successful
store. -/
theorem store_offline_message_duplicate_id_witness :
    ((MessageStore.store_offline_message MessageStore.initialize_database
        { peer_id := "a", target_user_id := some "b", message_type := "M",
          data := [], time_stamp := 1, message_id := "x", hop_count := 0,
          path := [Json.str "a"] } 0).1.store_offline_message
        { peer_id := "a", target_user_id := some "b", message_type := "M",
          data := [], time_stamp := 1, message_id := "x", hop_count := 0,
          path := [Json.str "a"] } 5).1 =
      (MessageStore.store_offline_message MessageStore.initialize_database
        { peer_id := "a", target_user_id := some "b", message_type := "M",
          data := [], time_stamp := 1, message_id := "x", hop_count := 0,
          path := [Json.str "a"] } 0).1 :=
  (store_offline_message_duplicate_id _ _ 5 (by decide)).1

/-- C7: a stored message whose expiry has passed (`expiry_time ≤ now`) is
not among the messages returned by `get_pending_messages` for any target,
the same call physically removes its row from `offline_messages`, and
`delete_expired_messages` removes every offline row whose schedule entry
has `expiry_time ≤ now`. -/
theorem expired_rows_purged (s : MessageStore) (target : String)
    (now nowm : Rat) (fresh : String) (r : ScheduleRow)
    (hr : r ∈ s.schedule_messages) (hexp : r.expiry_time ≤ now) :
    (∀ m ∈ (s.get_pending_messages target now now nowm now fresh).1,
        m.message_id ≠ r.message_id) ∧
    (∀ o ∈ (s.get_pending_messages target now now nowm now fresh).2.offline_messages,
        o.message_id ≠ r.message_id) ∧
    (∀ o ∈ (s.delete_expired_messages now).offline_messages,
        o.message_id ≠ r.message_id) := by
  have hdel : ∀ o ∈ (s.delete_expired_messages now).offline_messages,
      o.message_id ≠ r.message_id := by
    intro o ho heq
    simp only [MessageStore.delete_expired_messages, List.mem_filter,
      Bool.not_eq_true', List.any_eq_false] at ho
    have := ho.2 r hr
    simp [heq, hexp] at this
  refine ⟨?_, ?_, hdel⟩
  · intro m hm heq
    simp only [MessageStore.get_pending_messages, List.mem_map] at hm
    obtain ⟨o, homem, hconv⟩ := hm
    rw [List.mem_filter] at homem
    have : o.message_id = r.message_id := by
      rw [← heq, ← hconv]; rfl
    exact hdel o homem.1 this
  · intro o ho heq
    simp only [MessageStore.get_pending_messages,
      MessageStore.delet_sent_messages, List.mem_filter] at ho
    exact hdel o ho.1 heq

/-- C7 witness: a store whose single row is expired at time 700000 yields
nothing and is emptied. -/
theorem expired_rows_purged_witness :
    (∀ m ∈ ((MessageStore.store_offline_message
        MessageStore.initialize_database
        { peer_id := "a", target_user_id := some "b", message_type := "M",
          data := [], time_stamp := 1, message_id := "x", hop_count := 0,
          path := [Json.str "a"] } 0).1.get_pending_messages
          "b" 700000 700000 700000 700000 "f").1,
        m.message_id ≠ "x") ∧
    (∀ o ∈ ((MessageStore.store_offline_message
        MessageStore.initialize_database
        { peer_id := "a", target_user_id := some "b", message_type := "M",
          data := [], time_stamp := 1, message_id := "x", hop_count := 0,
          path := [Json.str "a"] } 0).1.get_pending_messages
          "b" 700000 700000 700000 700000 "f").2.offline_messages,
        o.message_id ≠ "x") ∧
    (∀ o ∈ ((MessageStore.store_offline_message
        MessageStore.initialize_database
        { peer_id := "a", target_user_id := some "b", message_type := "M",
          data := [], time_stamp := 1, message_id := "x", hop_count := 0,
          path := [Json.str "a"] } 0).1.delete_expired_messages
          700000).offline_messages,
        o.message_id ≠ "x") := by
  have := expired_rows_purged
    (MessageStore.store_offline_message MessageStore.initialize_database
      { peer_id := "a", target_user_id := some "b", message_type := "M",
        data := [], time_stamp := 1, message_id := "x", hop_count := 0,
        path := [Json.str "a"] } 0).1
    "b" 700000 700000 "f"
    { message_id := "x", last_tried := none, retry_count := 0,
      expiry_time := 604800 }
    (by simp [MessageStore.store_offline_message,
      MessageStore.initialize_database])
    (by norm_num)
  simpa using this

/-- C1 witness: the round-trip theorem applied at a concrete message. -/
theorem message_roundtrip_witness :
    Message.from_json 5 "f"
      (Message.to_json
        { peer_id := "a", target_user_id := some "b", message_type := "M",
          data := [("content", Json.str "hello")], time_stamp := 3,
          message_id := "x", hop_count := 2,
          path := [Json.str "a", Json.str "c"] }) =
    some { peer_id := "a", target_user_id := some "b", message_type := "M",
           data := [("content", Json.str "hello")], time_stamp := 3,
           message_id := "x", hop_count := 2,
           path := [Json.str "a", Json.str "c"] } :=
  message_roundtrip _ 5 "f" (by norm_num) (by norm_num)

end EcoBloom
